import Mathlib

/-! Physical address space of nemu-mips32 (`src/memory/memory.c`).

A shallow embedding of the region table, the resolver `find_region`, the two entry
points `vaddr_read` / `vaddr_write` and the device handlers (DDR, UART-lite, GPIO trap,
invalid), followed by the properties proved about them.

Conventions of the embedding

* `uint32_t` values (`vaddr_t`, `paddr_t`, `data`) are natural numbers below `2 ^ 32`;
  unsigned arithmetic of the source is written with an explicit `% 2 ^ 32`.
* `int len` is a natural number: the interface passes 1, 2 or 4, never a negative length.
* A failed `Assert` ends the run.  Every operation returns the pair of its result
  (`Except Fault _`) and the machine state at the moment it returned or aborted, so that
  what a faulting call did before aborting stays visible.
* The array `ddr` has exactly `DDR_SIZE` cells and is read through checked indexing.  A
  load that leaves the array has no defined result in C; the model gives it the outcome
  `Fault.load_past_ddr`, which is not a returned value.
* The host is little-endian (the source reads and writes `uint32_t` objects through
  byte pointers).
-/

deriving instance DecidableEq for Except

namespace Nemu

/-- One cell of `uint8_t ddr[DDR_SIZE]`. -/
abbrev uint8_t := Fin 256

/-- Source: `#define DDR_SIZE (128 * 1024 * 1024)`. -/
def DDR_SIZE : Nat := 128 * 1024 * 1024

/-- Modelled from the spec: the declaration of `nemu_state` lives in a header that is not
part of the source; the spec gives its three values RUNNING, ENDED, ABORTED.  The source
assigns `NEMU_END`. -/
inductive NemuState where
  | NEMU_RUNNING
  | NEMU_END
  | NEMU_ABORT
  deriving DecidableEq, Repr

/-- The two messages the source hands to `Log`. -/
inductive LogMsg where
  | HIT_GOOD_TRAP
  | HIT_BAD_TRAP
  deriving DecidableEq, Repr

/-- Modelled from the spec: `Assert(cond, fmt, ...)` is a macro of a header that is not part
of the source; the spec describes it as a fatal assert that emits the diagnostic and aborts.
One constructor per `Assert` site of `memory.c`, carrying the value printed by its format
string, and one more, `load_past_ddr`, for the one access of `memory.c` that can leave an
array without an `Assert` in front of it. -/
inductive Fault where
  /-- Raised by `find_region`: "address(0x%08x) is out of bound". -/
  | out_of_bound (addr : Nat)
  /-- Raised by `check_ddr`: "address(0x%08x) is out side DDR". -/
  | outside_ddr (addr : Nat)
  /-- Raised by `check_uartlite`, first assert: "address(0x%08x) is out side UARTLite". -/
  | outside_uartlite (addr : Nat)
  /-- Raised by `check_uartlite`, second assert: "UARTLite only allow byte read/write". -/
  | uartlite_byte_only
  /-- Raised by `uartlite_read`: "UARTLite: address(0x%08x) is not readable". -/
  | uartlite_not_readable (addr : Nat)
  /-- Raised by `uartlite_write`: "UARTLite: address(0x%08x) is not writable". -/
  | uartlite_not_writable (addr : Nat)
  /-- Raised by `check_gpio`, first assert: "address(0x%08x) is out side GPIO". -/
  | outside_gpio (addr : Nat)
  /-- Raised by `check_gpio`, second assert: "GPIO only allow byte read/write". -/
  | gpio_byte_only
  /-- Raised by `invalid_read`: "invalid read at address(0x%08x)". -/
  | invalid_read (addr : Nat)
  /-- Raised by `invalid_write`: "invalid write at address(0x%08x)". -/
  | invalid_write (addr : Nat)
  /-- Not an `Assert`: the four-byte load of `ddr_read` at offset `addr` fetches an index
  that is not a cell of `ddr`.  The C program has no defined result there (the host may end
  the run on the spot); the call does not return a value. -/
  | load_past_ddr (addr : Nat)
  deriving DecidableEq, Repr

/-- Everything `memory.c` reads or changes.

`ddr i` for `i < DDR_SIZE` is the cell `ddr[i]` of the array `uint8_t ddr[DDR_SIZE]`.  An
index `i ≥ DDR_SIZE` is not a cell: `ddr i` for such `i` only stands for whatever byte the
host holds behind the array, and no operation of the model hands it out (reads go through
`ddr_at`, writes pass `check_ddr` first). -/
structure State where
  /-- The array `ddr`; only the indices below `DDR_SIZE` are cells. -/
  ddr : Nat → uint8_t
  /-- The global `nemu_state`. -/
  nemu_state : NemuState
  /-- Characters written to standard output by `printf("%c", ...)`, oldest first. -/
  out : List Nat
  /-- Messages handed to `Log`, oldest first. -/
  log : List LogMsg

/-- Result of an operation together with the machine state when it returned or aborted. -/
abbrev Outcome (α : Type) := Except Fault α × State

/-- Source: `typedef uint32_t (*read_func)(paddr_t addr, int len)`. -/
abbrev read_func := Nat → Nat → State → Outcome Nat

/-- Source: `typedef void (*write_func)(paddr_t addr, int len, uint32_t data)`. -/
abbrev write_func := Nat → Nat → Nat → State → Outcome Unit

/-! ## DDR -/

/-- The condition of `check_ddr`: `addr >= 0 && addr < DDR_SIZE && addr + len <= DDR_SIZE`,
the sum taken in `uint32_t`. -/
def check_ddr (addr len : Nat) : Prop :=
  0 ≤ addr ∧ addr < DDR_SIZE ∧ (addr + len) % 2 ^ 32 ≤ DDR_SIZE

instance (addr len : Nat) : Decidable (check_ddr addr len) := by
  unfold check_ddr; infer_instance

/-- Indices of the bytes fetched by `*((uint32_t *)((uint8_t *)ddr + addr))`: the pointer is
cast to `uint32_t *`, so the load is four bytes wide whatever `len` is. -/
def ddr_read_span (addr : Nat) : List Nat := [addr, addr + 1, addr + 2, addr + 3]

/-- Value of a little-endian byte string. -/
def le_value : List uint8_t → Nat
  | [] => 0
  | b :: bs => b.val + 256 * le_value bs

/-- The value the load `*((uint32_t *)((uint8_t *)ddr + addr))` assembles from a flat byte
store, with no regard for where the array ends. -/
def load_u32 (mem : Nat → uint8_t) (addr : Nat) : Nat :=
  le_value ((ddr_read_span addr).map mem)

/-- The cell `ddr[i]` with the array taken as exactly `DDR_SIZE` cells: `none` for an index
that is not a cell of the array. -/
def ddr_at (s : State) (i : Nat) : Option uint8_t :=
  if i < DDR_SIZE then some (s.ddr i) else none

/-- The cells at a list of indices, in order, under checked indexing. -/
def ddr_fetch (s : State) : List Nat → Option (List uint8_t)
  | [] => some []
  | i :: rest =>
    match ddr_at s i with
    | none => none
    | some b =>
      match ddr_fetch s rest with
      | none => none
      | some bs => some (b :: bs)

/-- The load of `ddr_read` over the array with checked indexing: `none` as soon as one of
the fetched indices is not a cell of the array. -/
def load_u32_checked (s : State) (addr : Nat) : Option Nat :=
  (ddr_fetch s (ddr_read_span addr)).map le_value

/-- The mask `~0u >> ((4 - len) << 3)`. -/
def len_mask (len : Nat) : Nat := 0xFFFFFFFF >>> ((4 - len) <<< 3)

/-- Source: `ddr_read`: the check, then a four-byte load masked down to `len` bytes.  The
load is four bytes wide whatever `len` is and the check only bounds `addr + len`, so the
load can leave the array; the call then returns no value. -/
def ddr_read : read_func := fun addr len s =>
  if check_ddr addr len then
    match load_u32_checked s addr with
    | some w => (.ok (w &&& len_mask len), s)
    | none => (.error (.load_past_ddr addr), s)
  else
    (.error (.outside_ddr addr), s)

/-- Byte `k` of the object representation of a `uint32_t`. -/
def data_byte (data k : Nat) : uint8_t := Fin.ofNat (data >>> (8 * k))

/-- Source: `memcpy(dst + addr, &data, len)` on the byte store. -/
def memcpy_data (mem : Nat → uint8_t) (addr : Nat) (data len : Nat) : Nat → uint8_t :=
  fun i => if addr ≤ i ∧ i < addr + len then data_byte data (i - addr) else mem i

/-- Source: `ddr_write`: the check, then `memcpy` of the first `len` bytes of `data`. -/
def ddr_write : write_func := fun addr len data s =>
  if check_ddr addr len then
    (.ok (), { s with ddr := memcpy_data s.ddr addr data len })
  else
    (.error (.outside_ddr addr), s)

/-! ## UART-lite -/

/-- Source: `#define Rx 0x0`. -/
def Rx : Nat := 0x0
/-- Source: `#define Tx 0x04`. -/
def Tx : Nat := 0x04
/-- Source: `#define STAT 0x08`. -/
def STAT : Nat := 0x08
/-- Source: `#define CTRL 0x0c`. -/
def CTRL : Nat := 0x0c

/-- Source: `check_uartlite`: two asserts in sequence; `none` when both hold. -/
def check_uartlite (addr len : Nat) : Option Fault :=
  if ¬ (0 ≤ addr ∧ addr ≤ STAT) then some (.outside_uartlite addr)
  else if ¬ (len = 1) then some .uartlite_byte_only
  else none

/-- Source: `uartlite_read`: only `STAT` is readable and reads as 0. -/
def uartlite_read : read_func := fun addr len s =>
  match check_uartlite addr len with
  | some f => (.error f, s)
  | none =>
    if addr = STAT then (.ok 0, s)
    else (.error (.uartlite_not_readable addr), s)

/-- Source: `uartlite_write`: only `Tx` is writable; `printf("%c", (char)data)`. -/
def uartlite_write : write_func := fun addr len data s =>
  match check_uartlite addr len with
  | some f => (.error f, s)
  | none =>
    if addr = Tx then (.ok (), { s with out := s.out ++ [data % 256] })
    else (.error (.uartlite_not_writable addr), s)

/-! ## GPIO trap -/

/-- Source: `check_gpio`: two asserts in sequence; `none` when both hold. -/
def check_gpio (addr len : Nat) : Option Fault :=
  if ¬ (addr = 0) then some (.outside_gpio addr)
  else if ¬ (len = 1) then some .gpio_byte_only
  else none

/-- Source: `gpio_write`: logs the trap outcome by `(unsigned char)data`, then ends the run. -/
def gpio_write : write_func := fun addr len data s =>
  match check_gpio addr len with
  | some f => (.error f, s)
  | none =>
    let s1 : State :=
      if data % 256 = 0 then { s with log := s.log ++ [.HIT_GOOD_TRAP] }
      else { s with log := s.log ++ [.HIT_BAD_TRAP] }
    (.ok (), { s1 with nemu_state := .NEMU_END })

/-! ## Invalid handler -/

/-- Source: `invalid_read`: `Assert(false, ...)` on the address it was called with. -/
def invalid_read : read_func := fun addr _ s => (.error (.invalid_read addr), s)

/-- Source: `invalid_write`: `Assert(false, ...)` on the address it was called with. -/
def invalid_write : write_func := fun addr _ _ s => (.error (.invalid_write addr), s)

/-! ## Region table, resolver, dispatcher -/

/-- Source: `struct mmap_region`. -/
structure mmap_region where
  start : Nat
  end_ : Nat
  read : read_func
  write : write_func

/-- The table `mmap_table`. -/
def mmap_table : List mmap_region :=
  [ ⟨0x00000000, 0x00001fff, invalid_read, invalid_write⟩,
    ⟨0x10000000, 0x1fffffff, ddr_read, ddr_write⟩,
    ⟨0x40000000, 0x40000fff, invalid_read, gpio_write⟩,
    ⟨0x40001000, 0x40001fff, uartlite_read, uartlite_write⟩,
    ⟨0x40010000, 0x4001ffff, invalid_read, invalid_write⟩ ]

/-- Source: `#define NR_REGION (sizeof(mmap_table) / sizeof(mmap_table[0]))`. -/
def NR_REGION : Nat := mmap_table.length

/-- The loop of `find_region` over the entries from index `i` on: the first entry whose
inclusive range holds `addr` sets `ret` and breaks; `ret` stays `-1` otherwise. -/
def find_region_loop (addr : Nat) : List mmap_region → Nat → Int
  | [], _ => -1
  | r :: rs, i =>
    if addr ≥ r.start ∧ addr ≤ r.end_ then (i : Int)
    else find_region_loop addr rs (i + 1)

/-- Source: `find_region`: the loop, then `Assert(ret != -1, ...)`. -/
def find_region (addr : Nat) : Except Fault Nat :=
  let ret := find_region_loop addr mmap_table 0
  if ret ≠ -1 then .ok ret.toNat else .error (.out_of_bound addr)

/-- Entry read by `mmap_table[idx]`.  The index handed over by `find_region` is always
below `NR_REGION`; the fallback entry is never selected. -/
def table_at (idx : Nat) : mmap_region :=
  mmap_table.getD idx ⟨0, 0, invalid_read, invalid_write⟩

/-- Source: `vaddr_read`: resolve, then call the read handler on `addr - start` (in `uint32_t`). -/
def vaddr_read (addr len : Nat) (s : State) : Outcome Nat :=
  match find_region addr with
  | .error f => (.error f, s)
  | .ok idx => (table_at idx).read ((addr + 2 ^ 32 - (table_at idx).start) % 2 ^ 32) len s

/-- Source: `vaddr_write`: resolve, then call the write handler on `addr - start` (in `uint32_t`). -/
def vaddr_write (addr len data : Nat) (s : State) : Outcome Unit :=
  match find_region addr with
  | .error f => (.error f, s)
  | .ok idx =>
    (table_at idx).write ((addr + 2 ^ 32 - (table_at idx).start) % 2 ^ 32) len data s

/-- The five ranges of the address map, as a predicate on addresses. -/
def in_some_region (addr : Nat) : Prop :=
  ∃ r ∈ mmap_table, r.start ≤ addr ∧ addr ≤ r.end_

/-- An all-zero machine in the running state, used for concrete evaluations. -/
def zero_state : State := ⟨fun _ => 0, .NEMU_RUNNING, [], []⟩

/-- The all-zero machine with the first host byte behind the array set to 1. -/
def behind_state : State :=
  ⟨fun i => if i = DDR_SIZE then 1 else 0, .NEMU_RUNNING, [], []⟩

/-! ## Auxiliary facts -/

theorem find_region_eq (addr : Nat) :
    find_region addr =
      if addr ≤ 0x00001fff then .ok 0
      else if 0x10000000 ≤ addr ∧ addr ≤ 0x1fffffff then .ok 1
      else if 0x40000000 ≤ addr ∧ addr ≤ 0x40000fff then .ok 2
      else if 0x40001000 ≤ addr ∧ addr ≤ 0x40001fff then .ok 3
      else if 0x40010000 ≤ addr ∧ addr ≤ 0x4001ffff then .ok 4
      else .error (.out_of_bound addr) := by
  unfold find_region
  simp only [find_region_loop, mmap_table]
  split_ifs <;> first | rfl | (exfalso; omega)

theorem len_mask_one : len_mask 1 = 2 ^ 8 - 1 := by decide
theorem len_mask_two : len_mask 2 = 2 ^ 16 - 1 := by decide
theorem len_mask_four : len_mask 4 = 2 ^ 32 - 1 := by decide

theorem load_u32_eq (mem : Nat → uint8_t) (a : Nat) :
    load_u32 mem a =
      (mem a).val + 256 * ((mem (a + 1)).val + 256 * ((mem (a + 2)).val
        + 256 * (mem (a + 3)).val)) := by
  simp [load_u32, ddr_read_span, le_value]

theorem data_byte_val (data k : Nat) : (data_byte data k).val = data / 2 ^ (8 * k) % 256 := by
  simp [data_byte, Fin.ofNat, Nat.shiftRight_eq_div_pow]

theorem memcpy_data_inside (mem : Nat → uint8_t) (a data len k : Nat) (h : k < len) :
    memcpy_data mem a data len (a + k) = data_byte data k := by
  simp [memcpy_data, h]

theorem memcpy_data_outside (mem : Nat → uint8_t) (a data len i : Nat)
    (h : i < a ∨ a + len ≤ i) : memcpy_data mem a data len i = mem i := by
  unfold memcpy_data
  rw [if_neg]
  omega

theorem check_ddr_iff (a len : Nat) (ha : a < 2 ^ 32) (h0 : 0 < len) (hl : len ≤ 4) :
    check_ddr a len ↔ a + len ≤ DDR_SIZE := by
  unfold check_ddr DDR_SIZE
  constructor
  · rintro ⟨_, h1, h2⟩
    rw [Nat.mod_eq_of_lt (by omega)] at h2
    exact h2
  · intro h
    refine ⟨Nat.zero_le _, by omega, ?_⟩
    rw [Nat.mod_eq_of_lt (by omega)]
    exact h

theorem and_mask8 (x : Nat) : x &&& (2 ^ 8 - 1) = x % 256 :=
  Nat.and_pow_two_sub_one_eq_mod x 8

theorem and_mask16 (x : Nat) : x &&& (2 ^ 16 - 1) = x % 65536 :=
  Nat.and_pow_two_sub_one_eq_mod x 16

theorem and_mask32 (x : Nat) : x &&& (2 ^ 32 - 1) = x % 4294967296 :=
  Nat.and_pow_two_sub_one_eq_mod x 32

theorem table_at_zero : table_at 0 = ⟨0x00000000, 0x00001fff, invalid_read, invalid_write⟩ := rfl
theorem table_at_one : table_at 1 = ⟨0x10000000, 0x1fffffff, ddr_read, ddr_write⟩ := rfl
theorem table_at_two : table_at 2 = ⟨0x40000000, 0x40000fff, invalid_read, gpio_write⟩ := rfl
theorem table_at_three :
    table_at 3 = ⟨0x40001000, 0x40001fff, uartlite_read, uartlite_write⟩ := rfl
theorem table_at_four : table_at 4 = ⟨0x40010000, 0x4001ffff, invalid_read, invalid_write⟩ := rfl

/-- Inside the DDR window the dispatcher calls `ddr_read` on `addr - 0x10000000`. -/
theorem vaddr_read_ddr (A L : Nat) (s : State) (h1 : 0x10000000 ≤ A) (h2 : A ≤ 0x1fffffff) :
    vaddr_read A L s = ddr_read (A - 0x10000000) L s := by
  unfold vaddr_read
  rw [find_region_eq, if_neg (by omega), if_pos ⟨h1, h2⟩]
  simp only [table_at_one]
  have e : (A + 2 ^ 32 - 268435456) % 2 ^ 32 = A - 268435456 := by omega
  rw [e]

/-- Inside the DDR window the dispatcher calls `ddr_write` on `addr - 0x10000000`. -/
theorem vaddr_write_ddr (A L D : Nat) (s : State) (h1 : 0x10000000 ≤ A)
    (h2 : A ≤ 0x1fffffff) :
    vaddr_write A L D s = ddr_write (A - 0x10000000) L D s := by
  unfold vaddr_write
  rw [find_region_eq, if_neg (by omega), if_pos ⟨h1, h2⟩]
  simp only [table_at_one]
  have e : (A + 2 ^ 32 - 268435456) % 2 ^ 32 = A - 268435456 := by omega
  rw [e]

/-- Where the four fetched indices are cells of the array, the checked load is the load of
`ddr_read`. -/
theorem load_u32_checked_inside (s : State) (a : Nat) (h : a + 4 ≤ DDR_SIZE) :
    load_u32_checked s a = some (load_u32 s.ddr a) := by
  have h0 : a < DDR_SIZE := by omega
  have h1 : a + 1 < DDR_SIZE := by omega
  have h2 : a + 2 < DDR_SIZE := by omega
  have h3 : a + 3 < DDR_SIZE := by omega
  simp [load_u32_checked, load_u32, ddr_read_span, ddr_fetch, ddr_at, h0, h1, h2, h3]

/-- The checked load is out of range as soon as the four-byte span leaves the array. -/
theorem load_u32_checked_outside (s : State) (a : Nat) (h : DDR_SIZE < a + 4) :
    load_u32_checked s a = none := by
  have h3 : ¬ a + 3 < DDR_SIZE := by omega
  by_cases h0 : a < DDR_SIZE <;> by_cases h1 : a + 1 < DDR_SIZE <;>
    by_cases h2 : a + 2 < DDR_SIZE <;>
    simp [load_u32_checked, ddr_read_span, ddr_fetch, ddr_at, h0, h1, h2, h3]

/-- The read handler of DDR where the four-byte load stays inside the array. -/
theorem ddr_read_inside (s : State) (a L : Nat) (hc : check_ddr a L) (h4 : a + 4 ≤ DDR_SIZE) :
    ddr_read a L s = (.ok (load_u32 s.ddr a &&& len_mask L), s) := by
  unfold ddr_read
  rw [if_pos hc, load_u32_checked_inside s a h4]

/-- The read handler of DDR where the check passes and the four-byte load leaves the
array: no value is returned. -/
theorem ddr_read_past (s : State) (a L : Nat) (hc : check_ddr a L) (h4 : DDR_SIZE < a + 4) :
    ddr_read a L s = (.error (.load_past_ddr a), s) := by
  unfold ddr_read
  rw [if_pos hc, load_u32_checked_outside s a h4]

/-- The read handler of DDR where the check fails. -/
theorem ddr_read_refused (s : State) (a L : Nat) (hc : ¬ check_ddr a L) :
    ddr_read a L s = (.error (.outside_ddr a), s) := by
  unfold ddr_read
  rw [if_neg hc]

/-- The three outcomes of the read handler of DDR: a masked word, the load past the array,
the refusal by the check; the state is never changed. -/
theorem ddr_read_cases (s : State) (a L : Nat) :
    (∃ w, ddr_read a L s = (.ok (w &&& len_mask L), s)) ∨
      ddr_read a L s = (.error (.load_past_ddr a), s) ∨
      ddr_read a L s = (.error (.outside_ddr a), s) := by
  unfold ddr_read
  by_cases hc : check_ddr a L
  · rw [if_pos hc]
    cases load_u32_checked s a with
    | none => exact Or.inr (Or.inl rfl)
    | some w => exact Or.inl ⟨w, rfl⟩
  · rw [if_neg hc]
    exact Or.inr (Or.inr rfl)

/-- Value read by `ddr_read` for each of the three access widths, where the four-byte load
stays inside the array. -/
theorem ddr_read_val (s : State) (a L : Nat) (hL : L = 1 ∨ L = 2 ∨ L = 4)
    (h4 : a + 4 ≤ DDR_SIZE) :
    ddr_read a L s =
      (.ok (∑ i in Finset.range L, (s.ddr (a + i)).val * 256 ^ i), s) := by
  have hc : check_ddr a L := by
    refine (check_ddr_iff a L ?_ ?_ ?_).2 ?_ <;> (unfold DDR_SIZE at *; omega)
  rw [ddr_read_inside s a L hc h4, load_u32_eq]
  have b0 := (s.ddr a).isLt
  have b1 := (s.ddr (a + 1)).isLt
  have b2 := (s.ddr (a + 2)).isLt
  have b3 := (s.ddr (a + 3)).isLt
  rcases hL with h | h | h <;> subst h
  · rw [len_mask_one, and_mask8]
    simp only [Finset.sum_range_succ, Finset.sum_range_zero, Nat.add_zero, pow_zero, pow_one]
    congr 2
    simp only [uint8_t] at *
    omega
  · rw [len_mask_two, and_mask16]
    simp only [Finset.sum_range_succ, Finset.sum_range_zero, Nat.add_zero, pow_zero, pow_one]
    congr 2
    simp only [uint8_t] at *
    omega
  · rw [len_mask_four, and_mask32]
    simp only [Finset.sum_range_succ, Finset.sum_range_zero, Nat.add_zero, pow_zero, pow_one]
    congr 2
    simp only [uint8_t] at *
    omega

/-- Effect of `ddr_write` when the access lies inside the array. -/
theorem ddr_write_ok (s : State) (a L D : Nat) (hL : L = 1 ∨ L = 2 ∨ L = 4)
    (hb : a + L ≤ DDR_SIZE) :
    ddr_write a L D s = (.ok (), { s with ddr := memcpy_data s.ddr a D L }) := by
  have hc : check_ddr a L := by
    refine (check_ddr_iff a L ?_ ?_ ?_).2 hb <;> (unfold DDR_SIZE at hb; omega)
  unfold ddr_write
  rw [if_pos hc]

/-- The low `L` bytes of `D`, little-endian, add up to `D` masked to `L` bytes. -/
theorem data_bytes_sum (D L : Nat) (hL : L = 1 ∨ L = 2 ∨ L = 4) (hD : D < 2 ^ 32) :
    (∑ i in Finset.range L, (data_byte D i).val * 256 ^ i) = D &&& (2 ^ (8 * L) - 1) := by
  rw [Nat.and_pow_two_sub_one_eq_mod]
  rcases hL with h | h | h <;> subst h <;>
    simp only [Finset.sum_range_succ, Finset.sum_range_zero, data_byte_val] <;>
    norm_num <;> omega

/-- Frame of `ddr_write` in terms of the offset. -/
theorem ddr_write_untouched (s : State) (a L D : Nat) (hL : L = 1 ∨ L = 2 ∨ L = 4)
    (hb : a + L ≤ DDR_SIZE) :
    (∀ i, (i < a ∨ a + L ≤ i) → (ddr_write a L D s).2.ddr i = s.ddr i) ∧
      (ddr_write a L D s).2.nemu_state = s.nemu_state ∧
      (ddr_write a L D s).2.out = s.out ∧
      (ddr_write a L D s).2.log = s.log := by
  rw [ddr_write_ok s a L D hL hb]
  refine ⟨fun i hi => ?_, rfl, rfl, rfl⟩
  exact memcpy_data_outside s.ddr a D L i hi

/-! ## DDR: round trip, frame, values -/

/-- Round trip in the DDR window where the four-byte load of the read stays inside the
array: the write succeeds and the read that follows returns `D & (2^(8L) - 1)`. -/
theorem ddr_round_trip_inside (s : State) (A L D : Nat)
    (hA1 : 0x10000000 ≤ A) (hA2 : A ≤ 0x1FFFFFFF) (hL : L = 1 ∨ L = 2 ∨ L = 4)
    (h4 : (A - 0x10000000) + 4 ≤ DDR_SIZE) (hD : D < 2 ^ 32) :
    (vaddr_write A L D s).1 = .ok () ∧
      vaddr_read A L (vaddr_write A L D s).2 =
        (.ok (D &&& (2 ^ (8 * L) - 1)), (vaddr_write A L D s).2) := by
  have hb2 : (A - 0x10000000) + L ≤ DDR_SIZE := by omega
  rw [vaddr_write_ddr A L D s hA1 hA2, ddr_write_ok s _ L D hL hb2]
  refine ⟨rfl, ?_⟩
  rw [vaddr_read_ddr A L _ hA1 hA2, ddr_read_val _ _ L hL h4]
  have hs : (∑ i in Finset.range L,
      (memcpy_data s.ddr (A - 0x10000000) D L (A - 0x10000000 + i)).val * 256 ^ i)
      = ∑ i in Finset.range L, (data_byte D i).val * 256 ^ i := by
    refine Finset.sum_congr rfl fun i hi => ?_
    rw [memcpy_data_inside _ _ _ _ _ (Finset.mem_range.1 hi)]
  simp only [hs, data_bytes_sum D L hL hD]

/-- C1 (the code at the failing input). At the last byte of DDR, address `0x17FFFFFF` with
length 1, which satisfies `(A - 0x10000000) + L ≤ 128 MiB`, the write succeeds in every
state and for every data, but the read that follows passes `check_ddr` and then loads four
bytes, three of them past the array: it returns no value, so not `D & 0xFF`. -/
theorem ddr_round_trip_breaks_at_end (s : State) (D : Nat) :
    (0x17FFFFFF - 0x10000000) + 1 ≤ 128 * 1024 * 1024 ∧
      (vaddr_write 0x17FFFFFF 1 D s).1 = .ok () ∧
      vaddr_read 0x17FFFFFF 1 (vaddr_write 0x17FFFFFF 1 D s).2 =
        (.error (.load_past_ddr 0x7FFFFFF), (vaddr_write 0x17FFFFFF 1 D s).2) ∧
      (vaddr_read 0x17FFFFFF 1 (vaddr_write 0x17FFFFFF 1 D s).2).1 ≠
        .ok (D &&& (2 ^ (8 * 1) - 1)) := by
  have e : 0x17FFFFFF - 0x10000000 = 0x7FFFFFF := by decide
  have hw := vaddr_write_ddr 0x17FFFFFF 1 D s (by decide) (by decide)
  rw [e, ddr_write_ok s 0x7FFFFFF 1 D (Or.inl rfl) (by decide)] at hw
  have hr : ∀ t : State, vaddr_read 0x17FFFFFF 1 t = (.error (.load_past_ddr 0x7FFFFFF), t) := by
    intro t
    rw [vaddr_read_ddr 0x17FFFFFF 1 t (by decide) (by decide), e]
    exact ddr_read_past t 0x7FFFFFF 1 (by decide) (by decide)
  refine ⟨by decide, by rw [hw], hr _, ?_⟩
  rw [hr]
  intro h
  cases h

/-- C2. Frame of a DDR write: for an address `A` of the DDR window and a length `L` of 1, 2
or 4 with `(A - 0x10000000) + L ≤ 128 MiB`, `vaddr_write A L D` leaves every byte whose
index is outside `[A - 0x10000000, A - 0x10000000 + L)` as it was, and leaves the simulation
state, the emitted output and the log unchanged. -/
theorem ddr_write_frame (s : State) (A L D : Nat)
    (hA1 : 0x10000000 ≤ A) (hA2 : A ≤ 0x1FFFFFFF) (hL : L = 1 ∨ L = 2 ∨ L = 4)
    (hb : (A - 0x10000000) + L ≤ 128 * 1024 * 1024) :
    (∀ i, (i < A - 0x10000000 ∨ A - 0x10000000 + L ≤ i) →
        (vaddr_write A L D s).2.ddr i = s.ddr i) ∧
      (vaddr_write A L D s).2.nemu_state = s.nemu_state ∧
      (vaddr_write A L D s).2.out = s.out ∧
      (vaddr_write A L D s).2.log = s.log := by
  have hb2 : (A - 0x10000000) + L ≤ DDR_SIZE := hb
  rw [vaddr_write_ddr A L D s hA1 hA2]
  exact ddr_write_untouched s (A - 0x10000000) L D hL hb2

/-- Witness of C2: a 2-byte write at the start of the window. -/
theorem ddr_write_frame_witness :
    (∀ i, (i < 0x10000000 - 0x10000000 ∨ 0x10000000 - 0x10000000 + 2 ≤ i) →
        (vaddr_write 0x10000000 2 0xBEEF zero_state).2.ddr i = zero_state.ddr i) ∧
      (vaddr_write 0x10000000 2 0xBEEF zero_state).2.nemu_state = zero_state.nemu_state ∧
      (vaddr_write 0x10000000 2 0xBEEF zero_state).2.out = zero_state.out ∧
      (vaddr_write 0x10000000 2 0xBEEF zero_state).2.log = zero_state.log :=
  ddr_write_frame zero_state 0x10000000 2 0xBEEF (by decide) (by decide) (by decide)
    (by decide)

/-- Value of a DDR read where the four-byte load stays inside the array: the little-endian
value of the `L` bytes at the offset, below `2^32`, the same in every store that agrees
with this one below index `offset + L`. -/
theorem ddr_read_little_endian_inside (s : State) (off L : Nat)
    (hL : L = 1 ∨ L = 2 ∨ L = 4) (h4 : off + 4 ≤ DDR_SIZE) :
    ddr_read off L s = (.ok (∑ i in Finset.range L, (s.ddr (off + i)).val * 256 ^ i), s) ∧
      (∑ i in Finset.range L, (s.ddr (off + i)).val * 256 ^ i) < 2 ^ 32 ∧
      ∀ s2 : State, (∀ i, i < off + L → s2.ddr i = s.ddr i) →
        (ddr_read off L s2).1 = (ddr_read off L s).1 := by
  refine ⟨ddr_read_val s off L hL h4, ?_, fun s2 h2 => ?_⟩
  · have b0 := (s.ddr off).isLt
    have b1 := (s.ddr (off + 1)).isLt
    have b2 := (s.ddr (off + 2)).isLt
    have b3 := (s.ddr (off + 3)).isLt
    rcases hL with h | h | h <;> subst h <;>
      simp only [Finset.sum_range_succ, Finset.sum_range_zero, Nat.add_zero, pow_zero,
        pow_one] <;> omega
  · rw [ddr_read_val s off L hL h4, ddr_read_val s2 off L hL h4]
    show Except.ok _ = Except.ok _
    congr 1
    refine Finset.sum_congr rfl fun i hi => ?_
    rw [h2 (off + i) (by have := Finset.mem_range.1 hi; omega)]

/-- C3 (the code at the failing input). `ddr_read (DDR_SIZE - 2) 2` satisfies
`offset + L ≤ DDR_SIZE` and passes `check_ddr`, yet in every state its four-byte load
fetches the indices `DDR_SIZE` and `DDR_SIZE + 1`, which are not cells of the array: the
call returns no value, so not the little-endian value of the two bytes at the offset. -/
theorem ddr_read_no_value_at_end (s : State) :
    (DDR_SIZE - 2) + 2 ≤ DDR_SIZE ∧
      check_ddr (DDR_SIZE - 2) 2 ∧
      ddr_read_span (DDR_SIZE - 2) = [DDR_SIZE - 2, DDR_SIZE - 1, DDR_SIZE, DDR_SIZE + 1] ∧
      ddr_read (DDR_SIZE - 2) 2 s = (.error (.load_past_ddr (DDR_SIZE - 2)), s) ∧
      (ddr_read (DDR_SIZE - 2) 2 s).1 ≠
        .ok (∑ i in Finset.range 2, (s.ddr (DDR_SIZE - 2 + i)).val * 256 ^ i) := by
  have hr : ddr_read (DDR_SIZE - 2) 2 s = (.error (.load_past_ddr (DDR_SIZE - 2)), s) :=
    ddr_read_past s (DDR_SIZE - 2) 2 (by decide) (by decide)
  refine ⟨by decide, by decide, by decide, hr, ?_⟩
  rw [hr]
  intro h
  cases h

/-- C4. DDR write value: for an offset and a length `L` of 1, 2 or 4 with
`offset + L ≤ DDR_SIZE` and every `D` (32-bit or not), `ddr_write offset L D` succeeds and
afterwards the byte at index `offset + i` is `(D >> 8i) & 0xFF` for every `i < L`. -/
theorem ddr_write_bytes (s : State) (off L D : Nat) (hL : L = 1 ∨ L = 2 ∨ L = 4)
    (hb : off + L ≤ DDR_SIZE) :
    (ddr_write off L D s).1 = .ok () ∧
      ∀ i, i < L → ((ddr_write off L D s).2.ddr (off + i)).val = (D >>> (8 * i)) &&& 0xFF := by
  rw [ddr_write_ok s off L D hL hb]
  refine ⟨rfl, fun i hi => ?_⟩
  show (memcpy_data s.ddr off D L (off + i)).val = _
  rw [memcpy_data_inside _ _ _ _ _ hi, data_byte_val, Nat.shiftRight_eq_div_pow]
  exact (and_mask8 _).symm

/-- Witness of C4: a 4-byte write. -/
theorem ddr_write_bytes_witness :
    (ddr_write 0x100 4 0x12345678 zero_state).1 = .ok () ∧
      ∀ i, i < 4 → ((ddr_write 0x100 4 0x12345678 zero_state).2.ddr (0x100 + i)).val
        = (0x12345678 >>> (8 * i)) &&& 0xFF :=
  ddr_write_bytes zero_state 0x100 4 0x12345678 (by decide) (by decide)

/-! ## DDR: the width of the load, the bounds check -/

/-- C5 (the code at the failing input). `ddr_read (DDR_SIZE - 1) 1` passes `check_ddr`,
yet its load fetches the indices `DDR_SIZE`, `DDR_SIZE + 1`, `DDR_SIZE + 2`, none of them
a cell of the array: under checked indexing the load is out of range, so the call returns
no value, and the value a flat load would assemble before masking changes with the byte
behind the array. -/
theorem ddr_read_over_read_at_end :
    check_ddr (DDR_SIZE - 1) 1 ∧
      (ddr_read (DDR_SIZE - 1) 1 zero_state).1 = .error (.load_past_ddr (DDR_SIZE - 1)) ∧
      ddr_read_span (DDR_SIZE - 1) = [DDR_SIZE - 1, DDR_SIZE, DDR_SIZE + 1, DDR_SIZE + 2] ∧
      load_u32_checked zero_state (DDR_SIZE - 1) = none ∧
      load_u32 zero_state.ddr (DDR_SIZE - 1) = 0 ∧
      load_u32 behind_state.ddr (DDR_SIZE - 1) = 256 := by
  decide

/-- Outcomes of the DDR handlers in terms of the offset: the write is refused exactly when
`a + L > DDR_SIZE` and succeeds otherwise; the read is refused by the check in the same
case, returns a value when `a + 4 ≤ DDR_SIZE`, and in between passes the check and loads
past the array. -/
theorem ddr_bounds_off (s : State) (a L D : Nat) (ha : a < 2 ^ 32)
    (hL : L = 1 ∨ L = 2 ∨ L = 4) :
    ((∃ f, (ddr_write a L D s).1 = .error f) ↔ DDR_SIZE < a + L) ∧
      (DDR_SIZE < a + L →
        (ddr_read a L s).1 = .error (.outside_ddr a) ∧
          (ddr_write a L D s).1 = .error (.outside_ddr a)) ∧
      (a + L ≤ DDR_SIZE → (ddr_write a L D s).1 = .ok ()) ∧
      (a + 4 ≤ DDR_SIZE → ∃ v, (ddr_read a L s).1 = .ok v) ∧
      (a + L ≤ DDR_SIZE → DDR_SIZE < a + 4 →
        (ddr_read a L s).1 = .error (.load_past_ddr a)) := by
  have hc : check_ddr a L ↔ a + L ≤ DDR_SIZE :=
    check_ddr_iff a L ha (by omega) (by omega)
  by_cases h : a + L ≤ DDR_SIZE
  · have hw := ddr_write_ok s a L D hL h
    rw [hw]
    refine ⟨⟨?_, fun h2 => absurd h (by omega)⟩, fun h2 => absurd h (by omega),
      fun _ => rfl, fun h4 => ?_, fun _ h4 => ?_⟩
    · rintro ⟨f, hf⟩
      exact absurd hf (by simp)
    · rw [ddr_read_val s a L hL h4]
      exact ⟨_, rfl⟩
    · rw [ddr_read_past s a L (hc.2 h) h4]
  · have hn : ¬ check_ddr a L := fun hh => h (hc.1 hh)
    have hw : ddr_write a L D s = (.error (.outside_ddr a), s) := by
      unfold ddr_write; rw [if_neg hn]
    rw [ddr_read_refused s a L hn, hw]
    refine ⟨⟨fun _ => by omega, fun _ => ⟨_, rfl⟩⟩, fun _ => ⟨rfl, rfl⟩,
      fun h2 => absurd h2 h, fun h4 => absurd (show a + L ≤ DDR_SIZE by omega) h,
      fun h2 => absurd h2 h⟩

/-- Bounds of the DDR window: for an address `A` of the window and a length `L` of 1, 2 or
4, the write faults if and only if `(A - 0x10000000) + L > DDR_SIZE`, both operations
then fault in the DDR handler, which covers the upper half of the window; the write
succeeds otherwise, and the read returns a value when `(A - 0x10000000) + 4 ≤ DDR_SIZE`. -/
theorem ddr_bounds_window (s : State) (A L D : Nat)
    (hA1 : 0x10000000 ≤ A) (hA2 : A ≤ 0x1FFFFFFF) (hL : L = 1 ∨ L = 2 ∨ L = 4) :
    (((∃ f, (vaddr_write A L D s).1 = .error f) ↔ DDR_SIZE < (A - 0x10000000) + L) ∧
      (DDR_SIZE < (A - 0x10000000) + L →
        (vaddr_read A L s).1 = .error (.outside_ddr (A - 0x10000000)) ∧
          (vaddr_write A L D s).1 = .error (.outside_ddr (A - 0x10000000))) ∧
      ((A - 0x10000000) + L ≤ DDR_SIZE → (vaddr_write A L D s).1 = .ok ()) ∧
      ((A - 0x10000000) + 4 ≤ DDR_SIZE → ∃ v, (vaddr_read A L s).1 = .ok v) ∧
      ((A - 0x10000000) + L ≤ DDR_SIZE → DDR_SIZE < (A - 0x10000000) + 4 →
        (vaddr_read A L s).1 = .error (.load_past_ddr (A - 0x10000000)))) ∧
      (0x18000000 ≤ A → DDR_SIZE < (A - 0x10000000) + L) := by
  refine ⟨?_, fun h => ?_⟩
  · rw [vaddr_read_ddr A L s hA1 hA2, vaddr_write_ddr A L D s hA1 hA2]
    exact ddr_bounds_off s (A - 0x10000000) L D (by omega) hL
  · unfold DDR_SIZE
    omega

/-- C6 (the code at the failing input). The 2-byte read at `0x17FFFFFE` satisfies
`(A - 0x10000000) + L ≤ DDR_SIZE`, so the claim has it succeed; in every state it passes
`check_ddr` and then loads four bytes, two of them past the array, and returns no value,
while the 2-byte write at the same address succeeds. -/
theorem ddr_bounds_read_breaks_at_end (s : State) (D : Nat) :
    (0x17FFFFFE - 0x10000000) + 2 ≤ DDR_SIZE ∧
      (vaddr_write 0x17FFFFFE 2 D s).1 = .ok () ∧
      (vaddr_read 0x17FFFFFE 2 s).1 = .error (.load_past_ddr 0x7FFFFFE) ∧
      ¬ ∃ v, (vaddr_read 0x17FFFFFE 2 s).1 = .ok v := by
  have e : 0x17FFFFFE - 0x10000000 = 0x7FFFFFE := by decide
  have hw := vaddr_write_ddr 0x17FFFFFE 2 D s (by decide) (by decide)
  rw [e, ddr_write_ok s 0x7FFFFFE 2 D (Or.inr (Or.inl rfl)) (by decide)] at hw
  have hr : vaddr_read 0x17FFFFFE 2 s = (.error (.load_past_ddr 0x7FFFFFE), s) := by
    rw [vaddr_read_ddr 0x17FFFFFE 2 s (by decide) (by decide), e]
    exact ddr_read_past s 0x7FFFFFE 2 (by decide) (by decide)
  refine ⟨by decide, by rw [hw], by rw [hr], ?_⟩
  rw [hr]
  rintro ⟨v, hv⟩
  cases hv

/-! ## Faults leave the machine untouched -/

/-- The dispatcher `vaddr_read` written out over the five ranges. -/
theorem vaddr_read_eq (A L : Nat) (s : State) :
    vaddr_read A L s =
      if A ≤ 0x00001fff then invalid_read ((A + 2 ^ 32 - 0x00000000) % 2 ^ 32) L s
      else if 0x10000000 ≤ A ∧ A ≤ 0x1fffffff then
        ddr_read ((A + 2 ^ 32 - 0x10000000) % 2 ^ 32) L s
      else if 0x40000000 ≤ A ∧ A ≤ 0x40000fff then
        invalid_read ((A + 2 ^ 32 - 0x40000000) % 2 ^ 32) L s
      else if 0x40001000 ≤ A ∧ A ≤ 0x40001fff then
        uartlite_read ((A + 2 ^ 32 - 0x40001000) % 2 ^ 32) L s
      else if 0x40010000 ≤ A ∧ A ≤ 0x4001ffff then
        invalid_read ((A + 2 ^ 32 - 0x40010000) % 2 ^ 32) L s
      else (.error (.out_of_bound A), s) := by
  unfold vaddr_read
  rw [find_region_eq]
  split_ifs <;>
    simp only [table_at_zero, table_at_one, table_at_two, table_at_three, table_at_four]

/-- The dispatcher `vaddr_write` written out over the five ranges. -/
theorem vaddr_write_eq (A L D : Nat) (s : State) :
    vaddr_write A L D s =
      if A ≤ 0x00001fff then invalid_write ((A + 2 ^ 32 - 0x00000000) % 2 ^ 32) L D s
      else if 0x10000000 ≤ A ∧ A ≤ 0x1fffffff then
        ddr_write ((A + 2 ^ 32 - 0x10000000) % 2 ^ 32) L D s
      else if 0x40000000 ≤ A ∧ A ≤ 0x40000fff then
        gpio_write ((A + 2 ^ 32 - 0x40000000) % 2 ^ 32) L D s
      else if 0x40001000 ≤ A ∧ A ≤ 0x40001fff then
        uartlite_write ((A + 2 ^ 32 - 0x40001000) % 2 ^ 32) L D s
      else if 0x40010000 ≤ A ∧ A ≤ 0x4001ffff then
        invalid_write ((A + 2 ^ 32 - 0x40010000) % 2 ^ 32) L D s
      else (.error (.out_of_bound A), s) := by
  unfold vaddr_write
  rw [find_region_eq]
  split_ifs <;>
    simp only [table_at_zero, table_at_one, table_at_two, table_at_three, table_at_four]

/-- What `vaddr_read` amounts to: the resolver's fault or one of the read handlers. -/
theorem vaddr_read_cases (A L : Nat) (s : State) :
    vaddr_read A L s = (.error (.out_of_bound A), s) ∨
      ∃ a, vaddr_read A L s = invalid_read a L s ∨ vaddr_read A L s = ddr_read a L s ∨
        vaddr_read A L s = uartlite_read a L s := by
  rw [vaddr_read_eq]
  split_ifs
  · exact Or.inr ⟨_, Or.inl rfl⟩
  · exact Or.inr ⟨_, Or.inr (Or.inl rfl)⟩
  · exact Or.inr ⟨_, Or.inl rfl⟩
  · exact Or.inr ⟨_, Or.inr (Or.inr rfl)⟩
  · exact Or.inr ⟨_, Or.inl rfl⟩
  · exact Or.inl rfl

/-- What `vaddr_write` amounts to: the resolver's fault or one of the write handlers. -/
theorem vaddr_write_cases (A L D : Nat) (s : State) :
    vaddr_write A L D s = (.error (.out_of_bound A), s) ∨
      ∃ a, vaddr_write A L D s = invalid_write a L D s ∨
        vaddr_write A L D s = ddr_write a L D s ∨
        vaddr_write A L D s = gpio_write a L D s ∨
        vaddr_write A L D s = uartlite_write a L D s := by
  rw [vaddr_write_eq]
  split_ifs
  · exact Or.inr ⟨_, Or.inl rfl⟩
  · exact Or.inr ⟨_, Or.inr (Or.inl rfl)⟩
  · exact Or.inr ⟨_, Or.inr (Or.inr (Or.inl rfl))⟩
  · exact Or.inr ⟨_, Or.inr (Or.inr (Or.inr rfl))⟩
  · exact Or.inr ⟨_, Or.inl rfl⟩
  · exact Or.inl rfl

theorem invalid_read_state (a L : Nat) (s : State) : (invalid_read a L s).2 = s := rfl

theorem ddr_read_state (a L : Nat) (s : State) : (ddr_read a L s).2 = s := by
  rcases ddr_read_cases s a L with ⟨w, e⟩ | e | e <;> rw [e]

theorem uartlite_read_state (a L : Nat) (s : State) : (uartlite_read a L s).2 = s := by
  unfold uartlite_read; split <;> [rfl; (split_ifs <;> rfl)]

theorem invalid_write_state (a L D : Nat) (s : State) : (invalid_write a L D s).2 = s := rfl

theorem ddr_write_fault_state (a L D : Nat) (s : State)
    (h : ∃ f, (ddr_write a L D s).1 = .error f) : (ddr_write a L D s).2 = s := by
  unfold ddr_write at h ⊢
  split_ifs at h ⊢
  · obtain ⟨f, hf⟩ := h
    exact absurd hf (by simp)
  · rfl

theorem gpio_write_fault_state (a L D : Nat) (s : State)
    (h : ∃ f, (gpio_write a L D s).1 = .error f) : (gpio_write a L D s).2 = s := by
  unfold gpio_write at h ⊢
  cases hc : check_gpio a L with
  | some f => rfl
  | none =>
    rw [hc] at h
    simp at h

theorem uartlite_write_fault_state (a L D : Nat) (s : State)
    (h : ∃ f, (uartlite_write a L D s).1 = .error f) : (uartlite_write a L D s).2 = s := by
  unfold uartlite_write at h ⊢
  cases hc : check_uartlite a L with
  | some f => rfl
  | none =>
    rw [hc] at h
    by_cases ht : a = Tx
    · simp [ht] at h
    · simp [ht]

/-- C7. No partial effects on a fault: whatever the state, the address, the length and the
data, a `vaddr_read` or `vaddr_write` that faults aborts in exactly the state it was called
in: DDR contents, simulation state, emitted output and log are what they were. -/
theorem fault_no_effect (s : State) (A L D : Nat) :
    ((∃ f, (vaddr_read A L s).1 = .error f) → (vaddr_read A L s).2 = s) ∧
      ((∃ f, (vaddr_write A L D s).1 = .error f) → (vaddr_write A L D s).2 = s) := by
  constructor
  · intro _
    rcases vaddr_read_cases A L s with h | ⟨a, h | h | h⟩ <;> rw [h]
    · exact invalid_read_state a L s
    · exact ddr_read_state a L s
    · exact uartlite_read_state a L s
  · intro hf
    rcases vaddr_write_cases A L D s with h | ⟨a, h | h | h | h⟩ <;> rw [h] at hf ⊢
    · exact invalid_write_state a L D s
    · exact ddr_write_fault_state a L D s hf
    · exact gpio_write_fault_state a L D s hf
    · exact uartlite_write_fault_state a L D s hf

/-- Witness of C7: the 4-byte write two bytes before the end of DDR faults and changes
nothing. -/
theorem fault_no_effect_witness :
    (∃ f, (vaddr_write 0x17FFFFFE 4 0xFFFFFFFF zero_state).1 = .error f) ∧
      (vaddr_write 0x17FFFFFE 4 0xFFFFFFFF zero_state).2 = zero_state :=
  ⟨⟨.outside_ddr 0x7FFFFFE, by decide⟩,
    (fault_no_effect zero_state 0x17FFFFFE 4 0xFFFFFFFF).2 ⟨.outside_ddr 0x7FFFFFE, by decide⟩⟩

/-! ## Resolver and dispatch -/

/-- The entries of `mmap_table` by index. -/
theorem mmap_table_entry (i : Nat) (r : mmap_region) (hr : mmap_table[i]? = some r) :
    (i = 0 ∧ r = ⟨0x00000000, 0x00001fff, invalid_read, invalid_write⟩) ∨
      (i = 1 ∧ r = ⟨0x10000000, 0x1fffffff, ddr_read, ddr_write⟩) ∨
      (i = 2 ∧ r = ⟨0x40000000, 0x40000fff, invalid_read, gpio_write⟩) ∨
      (i = 3 ∧ r = ⟨0x40001000, 0x40001fff, uartlite_read, uartlite_write⟩) ∨
      (i = 4 ∧ r = ⟨0x40010000, 0x4001ffff, invalid_read, invalid_write⟩) := by
  unfold mmap_table at hr
  rcases i with _ | _ | _ | _ | _ | i <;> simp at hr <;> simp [← hr]

/-- The resolver returns the index of the entry whose range holds the address. -/
theorem find_region_of_entry (A i : Nat) (r : mmap_region)
    (hr : mmap_table[i]? = some r) (h1 : r.start ≤ A) (h2 : A ≤ r.end_) :
    find_region A = .ok i := by
  rw [find_region_eq]
  rcases mmap_table_entry i r hr with ⟨hi, e⟩ | ⟨hi, e⟩ | ⟨hi, e⟩ | ⟨hi, e⟩ | ⟨hi, e⟩ <;>
    subst hi <;> subst e <;> simp only at h1 h2 <;> split_ifs <;> first | rfl | omega

/-- C8. Resolver and dispatch: when the address `A` lies in the inclusive range of the
entry `r` at index `i` of `mmap_table`, then `i < 5`, `find_region A` returns `i`, and
`vaddr_read A L` / `vaddr_write A L D` are that entry's read / write handler applied to the
offset `A - r.start` with the same length and data; the offset is at most
`r.end_ - r.start`. -/
theorem resolver_dispatch (s : State) (A L D i : Nat) (r : mmap_region)
    (hr : mmap_table[i]? = some r) (h1 : r.start ≤ A) (h2 : A ≤ r.end_) :
    i < 5 ∧ find_region A = .ok i ∧
      vaddr_read A L s = r.read (A - r.start) L s ∧
      vaddr_write A L D s = r.write (A - r.start) L D s ∧
      A - r.start ≤ r.end_ - r.start := by
  rcases mmap_table_entry i r hr with ⟨hi, e⟩ | ⟨hi, e⟩ | ⟨hi, e⟩ | ⟨hi, e⟩ | ⟨hi, e⟩ <;>
    subst hi <;> subst e <;> simp only at h1 h2 ⊢
  · have e : (A + 2 ^ 32 - 0) % 2 ^ 32 = A - 0 := by omega
    refine ⟨by omega, ?_, ?_, ?_, by omega⟩
    · rw [find_region_eq, if_pos h2]
    · rw [vaddr_read_eq, if_pos h2, e]
    · rw [vaddr_write_eq, if_pos h2, e]
  · have e : (A + 2 ^ 32 - 268435456) % 2 ^ 32 = A - 268435456 := by omega
    refine ⟨by omega, ?_, ?_, ?_, by omega⟩
    · rw [find_region_eq, if_neg (by omega), if_pos ⟨h1, h2⟩]
    · rw [vaddr_read_eq, if_neg (by omega), if_pos ⟨h1, h2⟩, e]
    · rw [vaddr_write_eq, if_neg (by omega), if_pos ⟨h1, h2⟩, e]
  · have e : (A + 2 ^ 32 - 1073741824) % 2 ^ 32 = A - 1073741824 := by omega
    refine ⟨by omega, ?_, ?_, ?_, by omega⟩
    · rw [find_region_eq, if_neg (by omega), if_neg (by omega), if_pos ⟨h1, h2⟩]
    · rw [vaddr_read_eq, if_neg (by omega), if_neg (by omega), if_pos ⟨h1, h2⟩, e]
    · rw [vaddr_write_eq, if_neg (by omega), if_neg (by omega), if_pos ⟨h1, h2⟩, e]
  · have e : (A + 2 ^ 32 - 1073745920) % 2 ^ 32 = A - 1073745920 := by omega
    refine ⟨by omega, ?_, ?_, ?_, by omega⟩
    · rw [find_region_eq, if_neg (by omega), if_neg (by omega), if_neg (by omega),
        if_pos ⟨h1, h2⟩]
    · rw [vaddr_read_eq, if_neg (by omega), if_neg (by omega), if_neg (by omega),
        if_pos ⟨h1, h2⟩, e]
    · rw [vaddr_write_eq, if_neg (by omega), if_neg (by omega), if_neg (by omega),
        if_pos ⟨h1, h2⟩, e]
  · have e : (A + 2 ^ 32 - 1073807360) % 2 ^ 32 = A - 1073807360 := by omega
    refine ⟨by omega, ?_, ?_, ?_, by omega⟩
    · rw [find_region_eq, if_neg (by omega), if_neg (by omega), if_neg (by omega),
        if_neg (by omega), if_pos ⟨h1, h2⟩]
    · rw [vaddr_read_eq, if_neg (by omega), if_neg (by omega), if_neg (by omega),
        if_neg (by omega), if_pos ⟨h1, h2⟩, e]
    · rw [vaddr_write_eq, if_neg (by omega), if_neg (by omega), if_neg (by omega),
        if_neg (by omega), if_pos ⟨h1, h2⟩, e]

/-- Witness of C8: the STAT register of the UART-lite window, entry 3 of the table. -/
theorem resolver_dispatch_witness :
    mmap_table[3]? = some ⟨0x40001000, 0x40001fff, uartlite_read, uartlite_write⟩ ∧
      find_region 0x40001008 = .ok 3 ∧
      vaddr_read 0x40001008 1 zero_state = uartlite_read (0x40001008 - 0x40001000) 1 zero_state :=
  ⟨rfl,
    (resolver_dispatch zero_state 0x40001008 1 0 3
      ⟨0x40001000, 0x40001fff, uartlite_read, uartlite_write⟩ rfl (by decide) (by decide)).2.1,
    (resolver_dispatch zero_state 0x40001008 1 0 3
      ⟨0x40001000, 0x40001fff, uartlite_read, uartlite_write⟩ rfl (by decide)
      (by decide)).2.2.1⟩

/-- Membership in one of the five ranges, written out. -/
theorem in_some_region_iff (A : Nat) :
    in_some_region A ↔
      A ≤ 0x00001fff ∨ (0x10000000 ≤ A ∧ A ≤ 0x1fffffff) ∨
        (0x40000000 ≤ A ∧ A ≤ 0x40000fff) ∨ (0x40001000 ≤ A ∧ A ≤ 0x40001fff) ∨
        (0x40010000 ≤ A ∧ A ≤ 0x4001ffff) := by
  simp [in_some_region, mmap_table]

theorem invalid_read_not_oob (a L b : Nat) (s : State) :
    (invalid_read a L s).1 ≠ .error (.out_of_bound b) := by
  simp [invalid_read]

theorem invalid_write_not_oob (a L D b : Nat) (s : State) :
    (invalid_write a L D s).1 ≠ .error (.out_of_bound b) := by
  simp [invalid_write]

theorem ddr_read_not_oob (a L b : Nat) (s : State) :
    (ddr_read a L s).1 ≠ .error (.out_of_bound b) := by
  rcases ddr_read_cases s a L with ⟨w, e⟩ | e | e <;> rw [e] <;> simp

theorem ddr_write_not_oob (a L D b : Nat) (s : State) :
    (ddr_write a L D s).1 ≠ .error (.out_of_bound b) := by
  unfold ddr_write; split_ifs <;> simp

theorem uartlite_read_not_oob (a L b : Nat) (s : State) :
    (uartlite_read a L s).1 ≠ .error (.out_of_bound b) := by
  unfold uartlite_read check_uartlite; split_ifs <;> simp

theorem uartlite_write_not_oob (a L D b : Nat) (s : State) :
    (uartlite_write a L D s).1 ≠ .error (.out_of_bound b) := by
  unfold uartlite_write check_uartlite; split_ifs <;> simp

theorem gpio_write_not_oob (a L D b : Nat) (s : State) :
    (gpio_write a L D s).1 ≠ .error (.out_of_bound b) := by
  unfold gpio_write check_gpio; split_ifs <;> simp

/-- A read reports the resolver's fault exactly on the addresses of no range. -/
theorem vaddr_read_oob_iff (s : State) (A L : Nat) :
    (∃ b, (vaddr_read A L s).1 = .error (.out_of_bound b)) ↔ ¬ in_some_region A := by
  rw [in_some_region_iff, vaddr_read_eq]
  split_ifs with h0 h1 h2 h3 h4
  · exact ⟨fun ⟨b, hb⟩ => absurd hb (invalid_read_not_oob _ _ _ _), fun h => absurd (Or.inl h0) h⟩
  · exact ⟨fun ⟨b, hb⟩ => absurd hb (ddr_read_not_oob _ _ _ _),
      fun h => absurd (Or.inr (Or.inl h1)) h⟩
  · exact ⟨fun ⟨b, hb⟩ => absurd hb (invalid_read_not_oob _ _ _ _),
      fun h => absurd (Or.inr (Or.inr (Or.inl h2))) h⟩
  · exact ⟨fun ⟨b, hb⟩ => absurd hb (uartlite_read_not_oob _ _ _ _),
      fun h => absurd (Or.inr (Or.inr (Or.inr (Or.inl h3)))) h⟩
  · exact ⟨fun ⟨b, hb⟩ => absurd hb (invalid_read_not_oob _ _ _ _),
      fun h => absurd (Or.inr (Or.inr (Or.inr (Or.inr h4)))) h⟩
  · exact ⟨fun _ => by tauto, fun _ => ⟨A, rfl⟩⟩

/-- A write reports the resolver's fault exactly on the addresses of no range. -/
theorem vaddr_write_oob_iff (s : State) (A L D : Nat) :
    (∃ b, (vaddr_write A L D s).1 = .error (.out_of_bound b)) ↔ ¬ in_some_region A := by
  rw [in_some_region_iff, vaddr_write_eq]
  split_ifs with h0 h1 h2 h3 h4
  · exact ⟨fun ⟨b, hb⟩ => absurd hb (invalid_write_not_oob _ _ _ _ _),
      fun h => absurd (Or.inl h0) h⟩
  · exact ⟨fun ⟨b, hb⟩ => absurd hb (ddr_write_not_oob _ _ _ _ _),
      fun h => absurd (Or.inr (Or.inl h1)) h⟩
  · exact ⟨fun ⟨b, hb⟩ => absurd hb (gpio_write_not_oob _ _ _ _ _),
      fun h => absurd (Or.inr (Or.inr (Or.inl h2))) h⟩
  · exact ⟨fun ⟨b, hb⟩ => absurd hb (uartlite_write_not_oob _ _ _ _ _),
      fun h => absurd (Or.inr (Or.inr (Or.inr (Or.inl h3)))) h⟩
  · exact ⟨fun ⟨b, hb⟩ => absurd hb (invalid_write_not_oob _ _ _ _ _),
      fun h => absurd (Or.inr (Or.inr (Or.inr (Or.inr h4)))) h⟩
  · exact ⟨fun _ => by tauto, fun _ => ⟨A, rfl⟩⟩

/-- The resolver faults exactly on the addresses of no range, naming the address. -/
theorem find_region_error_iff (A : Nat) :
    find_region A = .error (.out_of_bound A) ↔ ¬ in_some_region A := by
  rw [in_some_region_iff, find_region_eq]
  split_ifs with h0 h1 h2 h3 h4
  · exact ⟨fun h => False.elim h, fun h => absurd (Or.inl h0) h⟩
  · exact ⟨fun h => False.elim h, fun h => absurd (Or.inr (Or.inl h1)) h⟩
  · exact ⟨fun h => False.elim h, fun h => absurd (Or.inr (Or.inr (Or.inl h2))) h⟩
  · exact ⟨fun h => False.elim h, fun h => absurd (Or.inr (Or.inr (Or.inr (Or.inl h3)))) h⟩
  · exact ⟨fun h => False.elim h, fun h => absurd (Or.inr (Or.inr (Or.inr (Or.inr h4)))) h⟩
  · exact ⟨fun _ => by tauto, fun _ => rfl⟩

/-- C9. Gap addresses are rejected by the resolver: whatever the state, the length and the
data, `find_region A` faults, and `vaddr_read A L` / `vaddr_write A L D` return the
resolver's out-of-bound fault in an unchanged state, if and only if `A` is in none of the
five ranges (so for `0x20000000` and `0x30000000`); inside a range no operation reports an
out-of-bound fault, and that fault differs from the two faults of the invalid handler. -/
theorem gap_rejected (s : State) (A L D : Nat) :
    (find_region A = .error (.out_of_bound A) ↔ ¬ in_some_region A) ∧
      (vaddr_read A L s = (.error (.out_of_bound A), s) ↔ ¬ in_some_region A) ∧
      (vaddr_write A L D s = (.error (.out_of_bound A), s) ↔ ¬ in_some_region A) ∧
      ((∃ b, (vaddr_read A L s).1 = .error (.out_of_bound b)) ↔ ¬ in_some_region A) ∧
      ((∃ b, (vaddr_write A L D s).1 = .error (.out_of_bound b)) ↔ ¬ in_some_region A) ∧
      (¬ in_some_region 0x20000000 ∧ ¬ in_some_region 0x30000000) ∧
      (∀ a, Fault.out_of_bound A ≠ Fault.invalid_read a ∧
        Fault.out_of_bound A ≠ Fault.invalid_write a) := by
  have hr := vaddr_read_oob_iff s A L
  have hw := vaddr_write_oob_iff s A L D
  have hf := find_region_error_iff A
  refine ⟨hf, ⟨fun h => hr.1 ⟨A, by rw [h]⟩, fun h => ?_⟩,
    ⟨fun h => hw.1 ⟨A, by rw [h]⟩, fun h => ?_⟩, hr, hw, ⟨?_, ?_⟩, fun a => ⟨?_, ?_⟩⟩
  · unfold vaddr_read
    rw [hf.2 h]
  · unfold vaddr_write
    rw [hf.2 h]
  · rw [in_some_region_iff]; omega
  · rw [in_some_region_iff]; omega
  · intro h; cases h
  · intro h; cases h

/-! ## Region table -/

/-- C10. Region table invariant: `mmap_table` has five entries, each with `start ≤ end`,
pairwise disjoint as inclusive ranges; an address lies in the range of at most one entry,
and the index returned by `find_region` is the index of the only entry whose range holds
the address. -/
theorem region_table_invariant :
    mmap_table.length = 5 ∧
      (∀ r ∈ mmap_table, r.start ≤ r.end_) ∧
      mmap_table.Pairwise (fun r1 r2 => r1.end_ < r2.start ∨ r2.end_ < r1.start) ∧
      (∀ (A i j : Nat) (r1 r2 : mmap_region), mmap_table[i]? = some r1 →
        mmap_table[j]? = some r2 → (r1.start ≤ A ∧ A ≤ r1.end_) →
        (r2.start ≤ A ∧ A ≤ r2.end_) → i = j) ∧
      (∀ (A i : Nat), find_region A = .ok i →
        ∀ (j : Nat) (r : mmap_region), mmap_table[j]? = some r →
          r.start ≤ A → A ≤ r.end_ → j = i) := by
  refine ⟨rfl, ?_, ?_, ?_, ?_⟩
  · simp [mmap_table]
  · simp [mmap_table]
  · intro A i j r1 r2 h1 h2 ha hb
    rcases mmap_table_entry i r1 h1 with ⟨hi, e⟩ | ⟨hi, e⟩ | ⟨hi, e⟩ | ⟨hi, e⟩ | ⟨hi, e⟩ <;>
      rcases mmap_table_entry j r2 h2 with ⟨hj, f⟩ | ⟨hj, f⟩ | ⟨hj, f⟩ | ⟨hj, f⟩ | ⟨hj, f⟩ <;>
      subst hi hj e f <;> simp only at ha hb <;> omega
  · intro A i h j r hr h1 h2
    have hd := (find_region_of_entry A j r hr h1 h2)
    rw [hd] at h
    injection h

/-! ## Dispatch per window -/

/-- In the low window the dispatcher calls `invalid_read` on the address itself. -/
theorem vaddr_read_low (A L : Nat) (s : State) (h : A ≤ 0x00001fff) :
    vaddr_read A L s = invalid_read A L s := by
  rw [vaddr_read_eq, if_pos h]
  have e : (A + 2 ^ 32 - 0) % 2 ^ 32 = A := by omega
  rw [e]

/-- In the low window the dispatcher calls `invalid_write` on the address itself. -/
theorem vaddr_write_low (A L D : Nat) (s : State) (h : A ≤ 0x00001fff) :
    vaddr_write A L D s = invalid_write A L D s := by
  rw [vaddr_write_eq, if_pos h]
  have e : (A + 2 ^ 32 - 0) % 2 ^ 32 = A := by omega
  rw [e]

/-- In the GPIO window the dispatcher calls `invalid_read` on `addr - 0x40000000`. -/
theorem vaddr_read_gpio (A L : Nat) (s : State) (h1 : 0x40000000 ≤ A) (h2 : A ≤ 0x40000fff) :
    vaddr_read A L s = invalid_read (A - 0x40000000) L s := by
  rw [vaddr_read_eq, if_neg (by omega), if_neg (by omega), if_pos ⟨h1, h2⟩]
  have e : (A + 2 ^ 32 - 1073741824) % 2 ^ 32 = A - 1073741824 := by omega
  rw [e]

/-- In the GPIO window the dispatcher calls `gpio_write` on `addr - 0x40000000`. -/
theorem vaddr_write_gpio (A L D : Nat) (s : State) (h1 : 0x40000000 ≤ A)
    (h2 : A ≤ 0x40000fff) :
    vaddr_write A L D s = gpio_write (A - 0x40000000) L D s := by
  rw [vaddr_write_eq, if_neg (by omega), if_neg (by omega), if_pos ⟨h1, h2⟩]
  have e : (A + 2 ^ 32 - 1073741824) % 2 ^ 32 = A - 1073741824 := by omega
  rw [e]

/-- In the UART window the dispatcher calls `uartlite_read` on `addr - 0x40001000`. -/
theorem vaddr_read_uart (A L : Nat) (s : State) (h1 : 0x40001000 ≤ A) (h2 : A ≤ 0x40001fff) :
    vaddr_read A L s = uartlite_read (A - 0x40001000) L s := by
  rw [vaddr_read_eq, if_neg (by omega), if_neg (by omega), if_neg (by omega),
    if_pos ⟨h1, h2⟩]
  have e : (A + 2 ^ 32 - 1073745920) % 2 ^ 32 = A - 1073745920 := by omega
  rw [e]

/-- In the UART window the dispatcher calls `uartlite_write` on `addr - 0x40001000`. -/
theorem vaddr_write_uart (A L D : Nat) (s : State) (h1 : 0x40001000 ≤ A)
    (h2 : A ≤ 0x40001fff) :
    vaddr_write A L D s = uartlite_write (A - 0x40001000) L D s := by
  rw [vaddr_write_eq, if_neg (by omega), if_neg (by omega), if_neg (by omega),
    if_pos ⟨h1, h2⟩]
  have e : (A + 2 ^ 32 - 1073745920) % 2 ^ 32 = A - 1073745920 := by omega
  rw [e]

/-- In the VGA window the dispatcher calls `invalid_read` on `addr - 0x40010000`. -/
theorem vaddr_read_vga (A L : Nat) (s : State) (h1 : 0x40010000 ≤ A) (h2 : A ≤ 0x4001ffff) :
    vaddr_read A L s = invalid_read (A - 0x40010000) L s := by
  rw [vaddr_read_eq, if_neg (by omega), if_neg (by omega), if_neg (by omega),
    if_neg (by omega), if_pos ⟨h1, h2⟩]
  have e : (A + 2 ^ 32 - 1073807360) % 2 ^ 32 = A - 1073807360 := by omega
  rw [e]

/-- In the VGA window the dispatcher calls `invalid_write` on `addr - 0x40010000`. -/
theorem vaddr_write_vga (A L D : Nat) (s : State) (h1 : 0x40010000 ≤ A)
    (h2 : A ≤ 0x4001ffff) :
    vaddr_write A L D s = invalid_write (A - 0x40010000) L D s := by
  rw [vaddr_write_eq, if_neg (by omega), if_neg (by omega), if_neg (by omega),
    if_neg (by omega), if_pos ⟨h1, h2⟩]
  have e : (A + 2 ^ 32 - 1073807360) % 2 ^ 32 = A - 1073807360 := by omega
  rw [e]

/-! ## UART-lite registers -/

/-- The read handler of the UART on `STAT` with a byte access. -/
theorem uartlite_read_stat (s : State) : uartlite_read STAT 1 s = (.ok 0, s) := rfl

/-- The read handler of the UART faults on anything but a byte access to `STAT`. -/
theorem uartlite_read_fault (a L : Nat) (s : State) (h : ¬ (a = STAT ∧ L = 1)) :
    ∃ f, uartlite_read a L s = (.error f, s) := by
  unfold uartlite_read check_uartlite
  by_cases h1 : a ≤ STAT
  · by_cases h2 : L = 1
    · have h3 : a ≠ STAT := fun e => h ⟨e, h2⟩
      exact ⟨.uartlite_not_readable a, by simp [h1, h2, h3]⟩
    · exact ⟨.uartlite_byte_only, by simp [h1, h2]⟩
  · exact ⟨.outside_uartlite a, by simp [Nat.lt_of_not_le h1]⟩

/-- The write handler of the UART on `Tx` with a byte access. -/
theorem uartlite_write_tx (D : Nat) (s : State) :
    uartlite_write Tx 1 D s = (.ok (), { s with out := s.out ++ [D % 256] }) := rfl

/-- The write handler of the UART faults on anything but a byte access to `Tx`. -/
theorem uartlite_write_fault (a L D : Nat) (s : State) (h : ¬ (a = Tx ∧ L = 1)) :
    ∃ f, uartlite_write a L D s = (.error f, s) := by
  unfold uartlite_write check_uartlite
  by_cases h1 : a ≤ STAT
  · by_cases h2 : L = 1
    · have h3 : a ≠ Tx := fun e => h ⟨e, h2⟩
      exact ⟨.uartlite_not_writable a, by simp [h1, h2, h3]⟩
    · exact ⟨.uartlite_byte_only, by simp [h1, h2]⟩
  · exact ⟨.outside_uartlite a, by simp [Nat.lt_of_not_le h1]⟩

theorem and_low_byte (x : Nat) : x &&& 0xFF = x % 256 := and_mask8 x

/-- C11. UART read: for an address `A` of the UART window `[0x40001000, 0x40001FFF]` and
any length `L`, `vaddr_read A L` returns 0 in an unchanged state if `A = 0x40001008`
(STAT) and `L = 1`, and faults, again in an unchanged state, in every other case. -/
theorem uart_read (s : State) (A L : Nat) (h1 : 0x40001000 ≤ A) (h2 : A ≤ 0x40001FFF) :
    (A = 0x40001008 ∧ L = 1 → vaddr_read A L s = (.ok 0, s)) ∧
      (¬ (A = 0x40001008 ∧ L = 1) → ∃ f, vaddr_read A L s = (.error f, s)) := by
  rw [vaddr_read_uart A L s h1 h2]
  constructor
  · rintro ⟨hA, hL⟩
    have e : A - 0x40001000 = STAT := by unfold STAT; omega
    rw [e, hL]
    exact uartlite_read_stat s
  · intro h
    refine uartlite_read_fault (A - 0x40001000) L s fun hh => h ⟨?_, hh.2⟩
    have := hh.1
    unfold STAT at this
    omega

/-- Witness of C11: the byte read of STAT on the all-zero machine, and the byte read of
Rx, which faults. -/
theorem uart_read_witness :
    vaddr_read 0x40001008 1 zero_state = (.ok 0, zero_state) ∧
      ∃ f, vaddr_read 0x40001000 1 zero_state = (.error f, zero_state) :=
  ⟨(uart_read zero_state 0x40001008 1 (by decide) (by decide)).1 ⟨rfl, rfl⟩,
    (uart_read zero_state 0x40001000 1 (by decide) (by decide)).2 (by decide)⟩

/-- C12. UART write: for an address `A` of the UART window, any length `L` and any data
`D`, `vaddr_write A L D` returns normally if and only if `A = 0x40001004` (Tx) and `L = 1`;
it then appends the one character `D & 0xFF` to the output and changes nothing else; in
every other case it faults in an unchanged state, so it emits nothing. -/
theorem uart_write (s : State) (A L D : Nat) (h1 : 0x40001000 ≤ A) (h2 : A ≤ 0x40001FFF) :
    ((∃ s2, vaddr_write A L D s = (.ok (), s2)) ↔ (A = 0x40001004 ∧ L = 1)) ∧
      (A = 0x40001004 ∧ L = 1 →
        vaddr_write A L D s = (.ok (), { s with out := s.out ++ [D &&& 0xFF] })) ∧
      (¬ (A = 0x40001004 ∧ L = 1) → ∃ f, vaddr_write A L D s = (.error f, s)) := by
  rw [vaddr_write_uart A L D s h1 h2]
  have hok : A = 0x40001004 ∧ L = 1 →
      uartlite_write (A - 0x40001000) L D s =
        (.ok (), { s with out := s.out ++ [D &&& 0xFF] }) := by
    rintro ⟨hA, hL⟩
    have e : A - 0x40001000 = Tx := by unfold Tx; omega
    rw [e, hL, and_low_byte]
    exact uartlite_write_tx D s
  have hbad : ¬ (A = 0x40001004 ∧ L = 1) →
      ∃ f, uartlite_write (A - 0x40001000) L D s = (.error f, s) := by
    intro h
    refine uartlite_write_fault (A - 0x40001000) L D s fun hh => h ⟨?_, hh.2⟩
    have := hh.1
    unfold Tx at this
    omega
  refine ⟨⟨fun ⟨s2, hs⟩ => ?_, fun h => ⟨_, hok h⟩⟩, hok, hbad⟩
  by_contra hn
  obtain ⟨f, hf⟩ := hbad hn
  rw [hf] at hs
  cases hs

/-- Witness of C12: the byte write of the letter A to Tx, and the byte write to STAT,
which faults. -/
theorem uart_write_witness :
    vaddr_write 0x40001004 1 0x41 zero_state =
        (.ok (), { zero_state with out := zero_state.out ++ [0x41 &&& 0xFF] }) ∧
      ∃ f, vaddr_write 0x40001008 1 0 zero_state = (.error f, zero_state) :=
  ⟨(uart_write zero_state 0x40001004 1 0x41 (by decide) (by decide)).2.1 ⟨rfl, rfl⟩,
    (uart_write zero_state 0x40001008 1 0 (by decide) (by decide)).2.2 (by decide)⟩

/-! ## GPIO trap, unimplemented windows -/

/-- The write handler of the GPIO on a byte access to offset 0. -/
theorem gpio_write_trap (D : Nat) (s : State) :
    gpio_write 0 1 D s =
      (.ok (), { s with
        nemu_state := .NEMU_END,
        log := s.log ++ [if D % 256 = 0 then .HIT_GOOD_TRAP else .HIT_BAD_TRAP] }) := by
  unfold gpio_write check_gpio
  by_cases h : D % 256 = 0 <;> simp [h]

/-- The write handler of the GPIO faults on anything but a byte access to offset 0. -/
theorem gpio_write_fault (a L D : Nat) (s : State) (h : ¬ (a = 0 ∧ L = 1)) :
    ∃ f, gpio_write a L D s = (.error f, s) := by
  unfold gpio_write check_gpio
  by_cases h1 : a = 0
  · have h2 : L ≠ 1 := fun e => h ⟨h1, e⟩
    exact ⟨.gpio_byte_only, by simp [h1, h2]⟩
  · exact ⟨.outside_gpio a, by simp [h1]⟩

/-- C13. GPIO trap write: for an address `A` of the GPIO window `[0x40000000, 0x40000FFF]`,
any length `L` and any data `D`, `vaddr_write A L D` succeeds if and only if
`A = 0x40000000` and `L = 1`; it then sets the simulation state to `NEMU_END` and appends
exactly one message to the log, the good trap if `D & 0xFF` is 0 and the bad trap
otherwise; in every other case it faults in an unchanged state. -/
theorem gpio_trap_write (s : State) (A L D : Nat) (h1 : 0x40000000 ≤ A)
    (h2 : A ≤ 0x40000FFF) :
    ((∃ s2, vaddr_write A L D s = (.ok (), s2)) ↔ (A = 0x40000000 ∧ L = 1)) ∧
      (A = 0x40000000 ∧ L = 1 →
        vaddr_write A L D s =
          (.ok (), { s with
            nemu_state := .NEMU_END,
            log := s.log ++ [if D &&& 0xFF = 0 then .HIT_GOOD_TRAP else .HIT_BAD_TRAP] })) ∧
      (¬ (A = 0x40000000 ∧ L = 1) → ∃ f, vaddr_write A L D s = (.error f, s)) := by
  rw [vaddr_write_gpio A L D s h1 h2]
  have hok : A = 0x40000000 ∧ L = 1 →
      gpio_write (A - 0x40000000) L D s =
        (.ok (), { s with
          nemu_state := .NEMU_END,
          log := s.log ++ [if D &&& 0xFF = 0 then .HIT_GOOD_TRAP else .HIT_BAD_TRAP] }) := by
    rintro ⟨hA, hL⟩
    have e : A - 0x40000000 = 0 := by omega
    rw [e, hL, and_low_byte]
    exact gpio_write_trap D s
  have hbad : ¬ (A = 0x40000000 ∧ L = 1) →
      ∃ f, gpio_write (A - 0x40000000) L D s = (.error f, s) := by
    intro h
    refine gpio_write_fault (A - 0x40000000) L D s fun hh => h ⟨?_, hh.2⟩
    have := hh.1
    omega
  refine ⟨⟨fun ⟨s2, hs⟩ => ?_, fun h => ⟨_, hok h⟩⟩, hok, hbad⟩
  by_contra hn
  obtain ⟨f, hf⟩ := hbad hn
  rw [hf] at hs
  cases hs

/-- Witness of C13: the trap write of 0 logs the good trap, the trap write of 1 logs the
bad trap; both end the run. -/
theorem gpio_trap_write_witness :
    vaddr_write 0x40000000 1 0 zero_state =
        (.ok (), { zero_state with
          nemu_state := .NEMU_END,
          log := zero_state.log ++
            [if 0 &&& 0xFF = 0 then .HIT_GOOD_TRAP else .HIT_BAD_TRAP] }) ∧
      vaddr_write 0x40000000 1 1 zero_state =
        (.ok (), { zero_state with
          nemu_state := .NEMU_END,
          log := zero_state.log ++
            [if 1 &&& 0xFF = 0 then .HIT_GOOD_TRAP else .HIT_BAD_TRAP] }) :=
  ⟨(gpio_trap_write zero_state 0x40000000 1 0 (by decide) (by decide)).2.1 ⟨rfl, rfl⟩,
    (gpio_trap_write zero_state 0x40000000 1 1 (by decide) (by decide)).2.1 ⟨rfl, rfl⟩⟩

/-- C14. Unimplemented regions always fault: whatever the state, the length and the data,
`vaddr_read` and `vaddr_write` fault, in an unchanged state, on every address of the low
window `[0, 0x1FFF]` and of the VGA window `[0x40010000, 0x4001FFFF]`, and `vaddr_read`
faults on every address of the GPIO window `[0x40000000, 0x40000FFF]`. -/
theorem unimplemented_fault (s : State) (A L D : Nat) :
    (A ≤ 0x00001FFF →
        (∃ f, vaddr_read A L s = (.error f, s)) ∧
          (∃ f, vaddr_write A L D s = (.error f, s))) ∧
      (0x40010000 ≤ A ∧ A ≤ 0x4001FFFF →
        (∃ f, vaddr_read A L s = (.error f, s)) ∧
          (∃ f, vaddr_write A L D s = (.error f, s))) ∧
      (0x40000000 ≤ A ∧ A ≤ 0x40000FFF → ∃ f, vaddr_read A L s = (.error f, s)) := by
  refine ⟨fun h => ⟨?_, ?_⟩, fun h => ⟨?_, ?_⟩, fun h => ?_⟩
  · rw [vaddr_read_low A L s h]; exact ⟨_, rfl⟩
  · rw [vaddr_write_low A L D s h]; exact ⟨_, rfl⟩
  · rw [vaddr_read_vga A L s h.1 h.2]; exact ⟨_, rfl⟩
  · rw [vaddr_write_vga A L D s h.1 h.2]; exact ⟨_, rfl⟩
  · rw [vaddr_read_gpio A L s h.1 h.2]; exact ⟨_, rfl⟩

/-- Witness of C14: the byte read at 0x00000100 and the word read at 0x40010000. -/
theorem unimplemented_fault_witness :
    (∃ f, vaddr_read 0x00000100 1 zero_state = (.error f, zero_state)) ∧
      (∃ f, vaddr_read 0x40010000 4 zero_state = (.error f, zero_state)) :=
  ⟨((unimplemented_fault zero_state 0x00000100 1 0).1 (by decide)).1,
    ((unimplemented_fault zero_state 0x40010000 4 0).2.1 (by decide)).1⟩

/-! ## Width of read results -/

/-- A successful `ddr_read` returns a value of at most `L` bytes. -/
theorem ddr_read_lt (s : State) (a L v : Nat) (hL : L = 1 ∨ L = 2 ∨ L = 4)
    (h : (ddr_read a L s).1 = .ok v) : v < 2 ^ (8 * L) := by
  rcases ddr_read_cases s a L with ⟨w, e⟩ | e | e <;> rw [e] at h
  · have hv : w &&& len_mask L = v := by injection h
    rw [← hv]
    rcases hL with e | e | e <;> subst e
    · rw [len_mask_one, and_mask8]; norm_num; omega
    · rw [len_mask_two, and_mask16]; norm_num; omega
    · rw [len_mask_four, and_mask32]; norm_num; omega
  · cases h
  · cases h

/-- A successful `uartlite_read` returns 0. -/
theorem uartlite_read_val (s : State) (a L v : Nat) (h : (uartlite_read a L s).1 = .ok v) :
    v = 0 := by
  by_cases hh : a = STAT ∧ L = 1
  · rw [hh.1, hh.2, uartlite_read_stat] at h
    injection h with h
    exact h.symm
  · obtain ⟨f, hf⟩ := uartlite_read_fault a L s hh
    rw [hf] at h
    cases h

/-- C15. Read results are masked to the access width: for every state, every address and
every length `L` of 1, 2 or 4, a `vaddr_read A L` that succeeds returns a value below
`2^(8L)`. -/
theorem read_masked (s : State) (A L v : Nat) (hL : L = 1 ∨ L = 2 ∨ L = 4)
    (h : (vaddr_read A L s).1 = .ok v) : v < 2 ^ (8 * L) := by
  rcases vaddr_read_cases A L s with e | ⟨a, e | e | e⟩ <;> rw [e] at h
  · cases h
  · cases h
  · exact ddr_read_lt s a L v hL h
  · rw [uartlite_read_val s a L v h]
    exact Nat.pos_pow_of_pos _ (by decide)

/-- Witness of C15: a 2-byte read of DDR after a 4-byte write of all ones. -/
theorem read_masked_witness :
    (vaddr_read 0x10000000 2 (vaddr_write 0x10000000 4 0xFFFFFFFF zero_state).2).1
        = .ok 0xFFFF ∧ 0xFFFF < 2 ^ (8 * 2) :=
  ⟨by decide,
    read_masked (vaddr_write 0x10000000 4 0xFFFFFFFF zero_state).2 0x10000000 2 0xFFFF
      (by decide) (by decide)⟩

/-! ## The bounds check in 32-bit arithmetic -/

/-- C19. The 32-bit arithmetic of `check_ddr` lets no out-of-range access pass: for a
32-bit offset and a length `L` of 1, 2 or 4, the check (with `offset + L` taken modulo
`2^32`) passes if and only if `offset + L ≤ DDR_SIZE` over the natural numbers; in
particular it fails whenever the sum wraps. -/
theorem check_ddr_no_wrap (off L : Nat) (ho : off < 2 ^ 32) (hL : L = 1 ∨ L = 2 ∨ L = 4) :
    (check_ddr off L ↔ off + L ≤ DDR_SIZE) ∧ (2 ^ 32 ≤ off + L → ¬ check_ddr off L) := by
  have hc := check_ddr_iff off L ho (by omega) (by omega)
  refine ⟨hc, fun hw hh => ?_⟩
  have := hc.1 hh
  unfold DDR_SIZE at this
  omega

/-- Witness of C19: the offset `0xFFFFFFFF` with a byte access wraps to 0 and is refused. -/
theorem check_ddr_no_wrap_witness :
    (0xFFFFFFFF + 1) % 2 ^ 32 ≤ DDR_SIZE ∧ ¬ check_ddr 0xFFFFFFFF 1 :=
  ⟨by decide,
    (check_ddr_no_wrap 0xFFFFFFFF 1 (by decide) (by decide)).2 (by decide)⟩

/-! ## Who changes what -/

/-- No read changes the machine. -/
theorem vaddr_read_state (A L : Nat) (s : State) : (vaddr_read A L s).2 = s := by
  rcases vaddr_read_cases A L s with e | ⟨a, e | e | e⟩ <;> rw [e]
  · exact invalid_read_state a L s
  · exact ddr_read_state a L s
  · exact uartlite_read_state a L s

/-- The GPIO write either faults in an unchanged state or is the trap write. -/
theorem gpio_write_cases (a L D : Nat) (s : State) :
    (∃ f, gpio_write a L D s = (.error f, s)) ∨
      (a = 0 ∧ L = 1 ∧
        gpio_write a L D s =
          (.ok (), { s with
            nemu_state := .NEMU_END,
            log := s.log ++ [if D % 256 = 0 then .HIT_GOOD_TRAP else .HIT_BAD_TRAP] })) := by
  by_cases h : a = 0 ∧ L = 1
  · refine Or.inr ⟨h.1, h.2, ?_⟩
    rw [h.1, h.2]
    exact gpio_write_trap D s
  · exact Or.inl (gpio_write_fault a L D s h)

/-- The UART write either faults in an unchanged state or is the Tx write. -/
theorem uartlite_write_cases (a L D : Nat) (s : State) :
    (∃ f, uartlite_write a L D s = (.error f, s)) ∨
      (a = Tx ∧ L = 1 ∧
        uartlite_write a L D s = (.ok (), { s with out := s.out ++ [D % 256] })) := by
  by_cases h : a = Tx ∧ L = 1
  · refine Or.inr ⟨h.1, h.2, ?_⟩
    rw [h.1, h.2]
    exact uartlite_write_tx D s
  · exact Or.inl (uartlite_write_fault a L D s h)

theorem gpio_write_ddr (a L D : Nat) (s : State) : (gpio_write a L D s).2.ddr = s.ddr := by
  rcases gpio_write_cases a L D s with ⟨f, e⟩ | ⟨_, _, e⟩ <;> rw [e]

theorem uartlite_write_ddr (a L D : Nat) (s : State) :
    (uartlite_write a L D s).2.ddr = s.ddr := by
  rcases uartlite_write_cases a L D s with ⟨f, e⟩ | ⟨_, _, e⟩ <;> rw [e]

theorem uartlite_write_nemu_state (a L D : Nat) (s : State) :
    (uartlite_write a L D s).2.nemu_state = s.nemu_state := by
  rcases uartlite_write_cases a L D s with ⟨f, e⟩ | ⟨_, _, e⟩ <;> rw [e]

theorem ddr_write_nemu_state (a L D : Nat) (s : State) :
    (ddr_write a L D s).2.nemu_state = s.nemu_state := by
  unfold ddr_write
  split_ifs <;> rfl

/-- C17. DDR is mutated only through its own write handler: whatever the state, the
address, the length and the data, a `vaddr_read` leaves every byte of `ddr` unchanged, and
so does every `vaddr_write` whose address is outside the DDR window
`[0x10000000, 0x1FFFFFFF]`, the successful UART Tx write and GPIO trap write included. -/
theorem ddr_only_by_ddr_write (s : State) (A L D : Nat) :
    (vaddr_read A L s).2.ddr = s.ddr ∧
      (¬ (0x10000000 ≤ A ∧ A ≤ 0x1FFFFFFF) → (vaddr_write A L D s).2.ddr = s.ddr) := by
  refine ⟨by rw [vaddr_read_state], fun h => ?_⟩
  rw [vaddr_write_eq]
  split_ifs
  · rfl
  · exact gpio_write_ddr _ L D s
  · exact uartlite_write_ddr _ L D s
  · rfl
  · rfl

/-- Witness of C17: the Tx write and the trap write leave `ddr` as it was. -/
theorem ddr_only_by_ddr_write_witness :
    (vaddr_write 0x40001004 1 0x41 zero_state).1 = .ok () ∧
      (vaddr_write 0x40001004 1 0x41 zero_state).2.ddr = zero_state.ddr ∧
      (vaddr_write 0x40000000 1 0 zero_state).1 = .ok () ∧
      (vaddr_write 0x40000000 1 0 zero_state).2.ddr = zero_state.ddr :=
  ⟨by decide, (ddr_only_by_ddr_write zero_state 0x40001004 1 0x41).2 (by decide),
    by decide, (ddr_only_by_ddr_write zero_state 0x40000000 1 0).2 (by decide)⟩

/-- C20. The simulation state is changed only by a successful GPIO trap write and only to
`NEMU_END`: a `vaddr_read` leaves it as it is; after a `vaddr_write` it is unchanged or
`NEMU_END`, and it differs from its previous value only if the call was the successful
write with `A = 0x40000000` and `L = 1`; once it is `NEMU_END` no operation moves it. -/
theorem sim_state_only_by_trap (s : State) (A L D : Nat) :
    (vaddr_read A L s).2.nemu_state = s.nemu_state ∧
      ((vaddr_write A L D s).2.nemu_state = s.nemu_state ∨
        (vaddr_write A L D s).2.nemu_state = .NEMU_END) ∧
      ((vaddr_write A L D s).2.nemu_state ≠ s.nemu_state →
        A = 0x40000000 ∧ L = 1 ∧ (vaddr_write A L D s).1 = .ok ()) ∧
      (s.nemu_state = .NEMU_END →
        (vaddr_read A L s).2.nemu_state = .NEMU_END ∧
          (vaddr_write A L D s).2.nemu_state = .NEMU_END) := by
  have hr : (vaddr_read A L s).2.nemu_state = s.nemu_state := by rw [vaddr_read_state]
  have hw : (vaddr_write A L D s).2.nemu_state = s.nemu_state ∨
      ((vaddr_write A L D s).2.nemu_state = .NEMU_END ∧
        A = 0x40000000 ∧ L = 1 ∧ (vaddr_write A L D s).1 = .ok ()) := by
    rw [vaddr_write_eq]
    split_ifs with h0 h1 h2 h3 h4
    · exact Or.inl rfl
    · exact Or.inl (ddr_write_nemu_state _ L D s)
    · rcases gpio_write_cases ((A + 2 ^ 32 - 1073741824) % 2 ^ 32) L D s with
        ⟨f, e⟩ | ⟨ha, hl, e⟩
      · rw [e]; exact Or.inl rfl
      · rw [e]; exact Or.inr ⟨rfl, by omega, hl, rfl⟩
    · exact Or.inl (uartlite_write_nemu_state _ L D s)
    · exact Or.inl rfl
    · exact Or.inl rfl
  refine ⟨hr, ?_, ?_, fun he => ⟨by rw [hr, he], ?_⟩⟩
  · rcases hw with h | h
    · exact Or.inl h
    · exact Or.inr h.1
  · intro hne
    rcases hw with h | h
    · exact absurd h hne
    · exact h.2
  · rcases hw with h | h
    · rw [h, he]
    · exact h.1

/-- Witness of C20: the trap write moves a running machine to `NEMU_END`. -/
theorem sim_state_only_by_trap_witness :
    (vaddr_write 0x40000000 1 1 zero_state).2.nemu_state ≠ zero_state.nemu_state ∧
      (0x40000000 = 0x40000000 ∧ 1 = 1 ∧ (vaddr_write 0x40000000 1 1 zero_state).1 = .ok ()) :=
  ⟨by decide, (sim_state_only_by_trap zero_state 0x40000000 1 1).2.2.1 (by decide)⟩

/-! ## The address reported by the invalid handler -/

/-- C18 (as stated, refuted). The word read at `0x40010000` faults in `invalid_read`, and
the address the fault reports is 0, the offset inside the VGA window, not `0x40010000`;
the byte read at `0x40000004` and the byte write at `0x40010010` report 4 and `0x10`. -/
theorem invalid_fault_not_absolute :
    (vaddr_read 0x40010000 4 zero_state).1 = .error (.invalid_read 0) ∧
      (vaddr_read 0x40010000 4 zero_state).1 ≠ .error (.invalid_read 0x40010000) ∧
      (vaddr_read 0x40000004 1 zero_state).1 = .error (.invalid_read 4) ∧
      (vaddr_read 0x40000004 1 zero_state).1 ≠ .error (.invalid_read 0x40000004) ∧
      (vaddr_write 0x40010010 1 0 zero_state).1 = .error (.invalid_write 0x10) ∧
      (vaddr_write 0x40010010 1 0 zero_state).1 ≠ .error (.invalid_write 0x40010010) := by
  decide

/-- C18 (amended). The fault of the invalid handler names the access kind and the
region-relative offset: `vaddr_read A L` raises the invalid-read fault on `A - start` for
`A` in the low window, the VGA window or the GPIO window, and `vaddr_write A L D` raises
the invalid-write fault on `A - start` for `A` in the low or the VGA window, `start` being
the start of the window; the reported address is `A` itself only in the low window, whose
start is 0. The state is unchanged. -/
theorem invalid_fault_offset (s : State) (A L D : Nat) :
    (A ≤ 0x00001FFF →
        vaddr_read A L s = (.error (.invalid_read A), s) ∧
          vaddr_write A L D s = (.error (.invalid_write A), s)) ∧
      (0x40010000 ≤ A ∧ A ≤ 0x4001FFFF →
        vaddr_read A L s = (.error (.invalid_read (A - 0x40010000)), s) ∧
          vaddr_write A L D s = (.error (.invalid_write (A - 0x40010000)), s)) ∧
      (0x40000000 ≤ A ∧ A ≤ 0x40000FFF →
        vaddr_read A L s = (.error (.invalid_read (A - 0x40000000)), s)) := by
  refine ⟨fun h => ⟨?_, ?_⟩, fun h => ⟨?_, ?_⟩, fun h => ?_⟩
  · rw [vaddr_read_low A L s h]; rfl
  · rw [vaddr_write_low A L D s h]; rfl
  · rw [vaddr_read_vga A L s h.1 h.2]; rfl
  · rw [vaddr_write_vga A L D s h.1 h.2]; rfl
  · rw [vaddr_read_gpio A L s h.1 h.2]; rfl

/-- Witness of the amended C18: the word read at the start of the VGA window and the byte
read at `0x00000100`. -/
theorem invalid_fault_offset_witness :
    vaddr_read 0x40010000 4 zero_state =
        (.error (.invalid_read (0x40010000 - 0x40010000)), zero_state) ∧
      vaddr_read 0x00000100 1 zero_state = (.error (.invalid_read 0x00000100), zero_state) :=
  ⟨((invalid_fault_offset zero_state 0x40010000 4 0).2.1 (by decide)).1,
    ((invalid_fault_offset zero_state 0x00000100 1 0).1 (by decide)).1⟩

/-! ## Only the low `L` bytes of the data count -/

/-- Bytes below `L` of two data words that agree on their low `L` bytes. -/
theorem data_byte_congr (D D2 L k : Nat) (hL : L = 1 ∨ L = 2 ∨ L = 4) (hk : k < L)
    (h : D % 2 ^ (8 * L) = D2 % 2 ^ (8 * L)) : data_byte D k = data_byte D2 k := by
  apply Fin.ext
  rw [data_byte_val, data_byte_val]
  rcases hL with e | e | e <;> subst e <;> interval_cases k <;> norm_num at h ⊢ <;> omega

theorem memcpy_data_congr (mem : Nat → uint8_t) (a D D2 L : Nat)
    (hL : L = 1 ∨ L = 2 ∨ L = 4) (h : D % 2 ^ (8 * L) = D2 % 2 ^ (8 * L)) :
    memcpy_data mem a D L = memcpy_data mem a D2 L := by
  funext i
  unfold memcpy_data
  split_ifs with hi
  · exact data_byte_congr D D2 L (i - a) hL (by omega) h
  · rfl

theorem ddr_write_congr (s : State) (a D D2 L : Nat)
    (hL : L = 1 ∨ L = 2 ∨ L = 4) (h : D % 2 ^ (8 * L) = D2 % 2 ^ (8 * L)) :
    ddr_write a L D s = ddr_write a L D2 s := by
  unfold ddr_write
  rw [memcpy_data_congr s.ddr a D D2 L hL h]

theorem uartlite_write_congr (s : State) (a D D2 L : Nat)
    (h : D % 2 ^ (8 * L) = D2 % 2 ^ (8 * L)) :
    uartlite_write a L D s = uartlite_write a L D2 s := by
  rcases uartlite_write_cases a L D s with ⟨f, e⟩ | ⟨ha, hl, _⟩
  · by_cases hh : a = Tx ∧ L = 1
    · rw [hh.1, hh.2, uartlite_write_tx] at e
      cases e
    · unfold uartlite_write check_uartlite
      by_cases h1 : a ≤ STAT
      · by_cases h2 : L = 1
        · have h3 : a ≠ Tx := fun e3 => hh ⟨e3, h2⟩
          simp [h1, h2, h3]
        · simp [h1, h2]
      · simp [Nat.lt_of_not_le h1]
  · subst ha hl
    have hb : D % 256 = D2 % 256 := by norm_num at h; exact h
    rw [uartlite_write_tx, uartlite_write_tx, hb]

theorem gpio_write_congr (s : State) (a D D2 L : Nat)
    (h : D % 2 ^ (8 * L) = D2 % 2 ^ (8 * L)) :
    gpio_write a L D s = gpio_write a L D2 s := by
  by_cases hh : a = 0 ∧ L = 1
  · obtain ⟨ha, hl⟩ := hh
    subst ha hl
    have hb : D % 256 = D2 % 256 := by norm_num at h; exact h
    rw [gpio_write_trap, gpio_write_trap, hb]
  · unfold gpio_write check_gpio
    by_cases h1 : a = 0
    · have h2 : L ≠ 1 := fun e => hh ⟨h1, e⟩
      simp [h1, h2]
    · simp [h1]

/-- Two writes whose data agree on their low `L` bytes are the same operation. -/
theorem vaddr_write_congr (s : State) (A L D D2 : Nat) (hL : L = 1 ∨ L = 2 ∨ L = 4)
    (h : D % 2 ^ (8 * L) = D2 % 2 ^ (8 * L)) :
    vaddr_write A L D s = vaddr_write A L D2 s := by
  rw [vaddr_write_eq, vaddr_write_eq]
  split_ifs
  · rfl
  · exact ddr_write_congr s _ D D2 L hL h
  · exact gpio_write_congr s _ D D2 L h
  · exact uartlite_write_congr s _ D D2 L h
  · rfl
  · rfl

/-- The dispatcher calls the write handler of the entry whose range holds the address. -/
theorem vaddr_write_of_entry (s : State) (A L D i : Nat) (r : mmap_region)
    (hr : mmap_table[i]? = some r) (h1 : r.start ≤ A) (h2 : A ≤ r.end_) :
    vaddr_write A L D s = r.write (A - r.start) L D s := by
  rcases mmap_table_entry i r hr with ⟨hi, e⟩ | ⟨hi, e⟩ | ⟨hi, e⟩ | ⟨hi, e⟩ | ⟨hi, e⟩ <;>
    subst hi <;> subst e <;> simp only at h1 h2 ⊢
  · exact vaddr_write_low A L D s h2
  · exact vaddr_write_ddr A L D s h1 h2
  · exact vaddr_write_gpio A L D s h1 h2
  · exact vaddr_write_uart A L D s h1 h2
  · exact vaddr_write_vga A L D s h1 h2

/-- C16. Write data is truncated to the access width: for every state, every address,
every length `L` of 1, 2 or 4 and every data `D`, `vaddr_write A L D` has exactly the
outcome of `vaddr_write A L (D & mask)` with `mask = 2^(8L) - 1`; two writes whose data
agree under the mask have the same outcome (same fault or same resulting machine); and
when `A` lies in the range of the table entry `r`, the outcome is that of `r.write` on
`A - r.start`, `L` and `D & mask`. -/
theorem write_data_truncated (s : State) (A L D : Nat) (hL : L = 1 ∨ L = 2 ∨ L = 4) :
    vaddr_write A L D s = vaddr_write A L (D &&& (2 ^ (8 * L) - 1)) s ∧
      (∀ D2, D &&& (2 ^ (8 * L) - 1) = D2 &&& (2 ^ (8 * L) - 1) →
        vaddr_write A L D s = vaddr_write A L D2 s) ∧
      (∀ (i : Nat) (r : mmap_region), mmap_table[i]? = some r → r.start ≤ A → A ≤ r.end_ →
        vaddr_write A L D s = r.write (A - r.start) L (D &&& (2 ^ (8 * L) - 1)) s) := by
  have h1 : vaddr_write A L D s = vaddr_write A L (D &&& (2 ^ (8 * L) - 1)) s := by
    apply vaddr_write_congr s A L _ _ hL
    rw [Nat.and_pow_two_sub_one_eq_mod, Nat.mod_mod]
  refine ⟨h1, fun D2 h => ?_, fun i r hr ha hb => ?_⟩
  · apply vaddr_write_congr s A L _ _ hL
    rw [Nat.and_pow_two_sub_one_eq_mod, Nat.and_pow_two_sub_one_eq_mod] at h
    exact h
  · rw [h1]
    exact vaddr_write_of_entry s A L _ i r hr ha hb

/-- Witness of C16: a 2-byte DDR write of `0x12345678` is the 2-byte write of `0x5678`. -/
theorem write_data_truncated_witness :
    vaddr_write 0x10000000 2 0x12345678 zero_state
      = vaddr_write 0x10000000 2 (0x12345678 &&& (2 ^ (8 * 2) - 1)) zero_state :=
  (write_data_truncated zero_state 0x10000000 2 0x12345678 (by decide)).1

end Nemu
